import Mathlib

/-!
# SkeletonKeyframe: hierarchical transforms, scene graph and keyframe animator

A shallow embedding of `src/Primitives.h`, `src/Primitives.cpp`, `src/ofApp.h`
and `src/ofApp.cpp`.

Conventions of the embedding

* `float` values are elements of a linear ordered field `K` (exact arithmetic).
  The transcendental library functions (`cos`, `sin`, `sqrt`) and the constant
  `PI` are supplied through a `FloatOps K` record, so every definition is
  executable over `ℚ` and can be read over `ℝ` with the real functions.
* `SceneObject*` values are addresses (`Ptr`); the heap is a total map from
  addresses to objects, and `new` takes the next unused address.
* An out-of-range `vector` access and an `erase` outside the vector are
  undefined behaviour in C++; the embedded operations return `none` there.
* The recursion of `getMatrix` is bounded by a fuel argument.
-/

namespace SkeletonKeyframe

/-! ## Vectors and matrices (glm) -/

/-- Address of a heap allocated `SceneObject`. -/
abbrev Ptr := Nat

/-- The three component vector `glm::vec3`. -/
structure Vec3 (K : Type) where
  x : K
  y : K
  z : K
deriving DecidableEq

/-- The 4x4 matrix `glm::mat4`, as a mathematical matrix (row, column). -/
abbrev Mat4 (K : Type) := Matrix (Fin 4) (Fin 4) K

/-- Library functions on `float` that are not field operations. -/
structure FloatOps (K : Type) where
  cos : K → K
  sin : K → K
  sqrt : K → K
  pi : K

section Glm

variable {K : Type} [LinearOrderedField K]

instance : Add (Vec3 K) := ⟨fun a b => ⟨a.x + b.x, a.y + b.y, a.z + b.z⟩⟩
instance : Sub (Vec3 K) := ⟨fun a b => ⟨a.x - b.x, a.y - b.y, a.z - b.z⟩⟩
instance : Neg (Vec3 K) := ⟨fun a => ⟨-a.x, -a.y, -a.z⟩⟩

/-- The vector `v * s` for a scalar `s`. -/
def Vec3.scale (v : Vec3 K) (s : K) : Vec3 K := ⟨v.x * s, v.y * s, v.z * s⟩

/-- The vector `v / s` for a scalar `s`. -/
def Vec3.divS (v : Vec3 K) (s : K) : Vec3 K := ⟨v.x / s, v.y / s, v.z / s⟩

/-- The value `glm::vec3(0, 0, 0)`. -/
def Vec3.zero : Vec3 K := ⟨0, 0, 0⟩

/-- The value `glm::vec3(1, 1, 1)`. -/
def Vec3.one : Vec3 K := ⟨1, 1, 1⟩

/-- Squared Euclidean norm (`glm::dot(v, v)`). -/
def Vec3.dot (a b : Vec3 K) : K := a.x * b.x + a.y * b.y + a.z * b.z

/-- Euclidean norm `glm::length(v) = sqrt(dot(v, v))`. -/
def Vec3.length (F : FloatOps K) (v : Vec3 K) : K := F.sqrt (Vec3.dot v v)

/-- Degrees to radians, `glm::radians`. -/
def radians (F : FloatOps K) (deg : K) : K := deg * (F.pi / 180)

/-- The matrix `glm::translate(glm::mat4(1.0), v)`. -/
def translate (v : Vec3 K) : Mat4 K :=
  !![1, 0, 0, v.x;
     0, 1, 0, v.y;
     0, 0, 1, v.z;
     0, 0, 0, 1]

/-- The matrix `glm::scale(glm::mat4(1.0), v)`. -/
def scaleMat (v : Vec3 K) : Mat4 K :=
  !![v.x, 0, 0, 0;
     0, v.y, 0, 0;
     0, 0, v.z, 0;
     0, 0, 0, 1]

/-- The matrix `glm::eulerAngleYXZ(yaw, pitch, roll)`; glm stores it column by
column, the entries below are written row by row. -/
def eulerAngleYXZ (F : FloatOps K) (yaw pitch roll : K) : Mat4 K :=
  let ch := F.cos yaw
  let sh := F.sin yaw
  let cp := F.cos pitch
  let sp := F.sin pitch
  let cb := F.cos roll
  let sb := F.sin roll
  !![ch * cb + sh * sp * sb, -ch * sb + sh * sp * cb, sh * cp, 0;
     sb * cp, cb * cp, -sp, 0;
     -sh * cb + ch * sp * sb, sb * sh + ch * sp * cb, ch * cp, 0;
     0, 0, 0, 1]

/-- The matrix `glm::inverse(m)`: the adjugate divided by the determinant. -/
def inverse (m : Mat4 K) : Mat4 K := (Matrix.det m)⁻¹ • Matrix.adjugate m

/-- The value `glm::vec3(m * glm::vec4(p, 1.0))`: the first three components of
the product. -/
def transformPoint (m : Mat4 K) (p : Vec3 K) : Vec3 K :=
  let v := Matrix.mulVec m ![p.x, p.y, p.z, 1]
  ⟨v 0, v 1, v 2⟩

end Glm

/-! ## Scene objects (Primitives.h) -/

/-- The concrete classes of scene objects that the application allocates. -/
inductive Shape (K : Type) where
  | plane (normal : Vec3 K) (width height : K)
  | joint (radius : K)
deriving DecidableEq

/-- The class `SceneObject` together with the data of its subclass. -/
structure SceneObject (K : Type) where
  parent : Option Ptr
  childList : List Ptr
  position : Vec3 K
  rotation : Vec3 K
  scale : Vec3 K
  pivot : Vec3 K
  isSelectable : Bool
  name : String
  shape : Shape K
deriving DecidableEq

/-- The heap: every address holds an object. -/
abbrev Heap (K : Type) := Ptr → SceneObject K

section Primitives

variable {K : Type} [LinearOrderedField K]

/-- Overwrite the object stored at address `p`. -/
def Heap.set (h : Heap K) (p : Ptr) (o : SceneObject K) : Heap K :=
  fun q => if q = p then o else h q

/-- The method `SceneObject::getRotateMatrix`. -/
def getRotateMatrix (F : FloatOps K) (o : SceneObject K) : Mat4 K :=
  eulerAngleYXZ F (radians F o.rotation.y) (radians F o.rotation.x) (radians F o.rotation.z)

/-- The method `SceneObject::getTranslateMatrix`. -/
def getTranslateMatrix (o : SceneObject K) : Mat4 K :=
  translate ⟨o.position.x, o.position.y, o.position.z⟩

/-- The method `SceneObject::getScaleMatrix`. -/
def getScaleMatrix (o : SceneObject K) : Mat4 K :=
  scaleMat ⟨o.scale.x, o.scale.y, o.scale.z⟩

/-- The method `SceneObject::getLocalMatrix`. -/
def getLocalMatrix (F : FloatOps K) (o : SceneObject K) : Mat4 K :=
  let scale := getScaleMatrix o
  let rotate := getRotateMatrix F o
  let trans := getTranslateMatrix o
  let pre := translate (⟨-o.pivot.x, -o.pivot.y, -o.pivot.z⟩ : Vec3 K)
  let post := translate (⟨o.pivot.x, o.pivot.y, o.pivot.z⟩ : Vec3 K)
  trans * post * rotate * pre * scale

/-- The method `SceneObject::getMatrix`, called on the object at address `p`.
The recursion through `parent` is bounded by the fuel; `none` means that the
fuel ran out. -/
def getMatrix (F : FloatOps K) (h : Heap K) : Nat → Ptr → Option (Mat4 K)
  | 0, _ => none
  | fuel + 1, p =>
    match (h p).parent with
    | some q => (getMatrix F h fuel q).map (fun M => M * getLocalMatrix F (h p))
    | none => some (getLocalMatrix F (h p))

/-- The method `SceneObject::getPosition`. -/
def getPosition (F : FloatOps K) (h : Heap K) (fuel : Nat) (p : Ptr) : Option (Vec3 K) :=
  (getMatrix F h fuel p).map (fun M => transformPoint M Vec3.zero)

/-- The method `SceneObject::setPosition`. -/
def setPosition (F : FloatOps K) (h : Heap K) (fuel : Nat) (p : Ptr) (pos : Vec3 K) :
    Option (Heap K) :=
  (getMatrix F h fuel p).map
    (fun M => Heap.set h p { h p with position := transformPoint (inverse M) pos })

/-- The method `SceneObject::addChild`, called on the object at address `p`. -/
def addChild (h : Heap K) (p child : Ptr) : Heap K :=
  let h1 := Heap.set h p { h p with childList := (h p).childList ++ [child] }
  Heap.set h1 child { h1 child with parent := some p }

/-- The list `path` starts at a node and follows the `parent` links up to a root:
every entry but the last has the next entry as parent and the last entry has no
parent. -/
def parentPath (h : Heap K) : List Ptr → Bool
  | [] => false
  | [r] => decide ((h r).parent = none)
  | n :: p :: rest => decide ((h n).parent = some p) && parentPath h (p :: rest)

end Primitives

/-! ## Loops and library functions on strings -/

/-- The loop `for (int i = start; i < start + n; i++) body`, where the body may
hit undefined behaviour (`none`). -/
def forLoop {σ : Type} (body : Nat → σ → Option σ) : Nat → Nat → σ → Option σ
  | 0, _, s => some s
  | n + 1, i, s => (body i s).bind (forLoop body n (i + 1))

/-- The predicate `std::isspace` of the C locale. -/
def isSpace (c : Char) : Bool :=
  c = ' ' || c = '\t' || c = '\n' || c = '\x0b' || c = '\x0c' || c = '\r'

/-- Worker of `splitWords`; `cur` holds the characters of the current word in
reverse order. -/
def splitWordsAux : List Char → List Char → List String
  | [], cur => if cur = [] then [] else [String.mk cur.reverse]
  | c :: cs, cur =>
    if isSpace c then
      (if cur = [] then splitWordsAux cs [] else String.mk cur.reverse :: splitWordsAux cs [])
    else splitWordsAux cs (c :: cur)

/-- The words that `while (ss >> word)` reads from a line. -/
def splitWords (line : String) : List String := splitWordsAux line.data []

/-- The call `s.substr(pos, count)` for `pos ≤ s.size()`. -/
def substr (s : String) (pos count : Nat) : String := String.mk ((s.data.drop pos).take count)

/-- Value of a string of decimal digits. -/
def parseDigits (cs : List Char) : Nat := cs.foldl (fun a c => 10 * a + (c.toNat - 48)) 0

/-- Split an optional sign off a character list: the flag says whether the sign
is a minus. -/
def splitSign : List Char → Bool × List Char
  | '-' :: r => (true, r)
  | '+' :: r => (false, r)
  | cs => (false, cs)

/-- The function `std::stoi` (base 10): leading white space, an optional sign, and
the longest run of digits; `none` stands for the exception thrown when no digit
is found or the value does not fit an `int`. -/
def stoi (s : String) : Option Int :=
  let cs := s.data.dropWhile isSpace
  let sg := splitSign cs
  let ds := sg.2.takeWhile Char.isDigit
  if ds = [] then none
  else
    let v : Int := if sg.1 then -(parseDigits ds : Int) else (parseDigits ds : Int)
    if -2147483648 ≤ v ∧ v ≤ 2147483647 then some v else none

section Stof

variable {K : Type} [LinearOrderedField K]

/-- The exponent suffix of a decimal floating literal: `e` or `E`, an optional
sign and at least one digit; the result is the factor it stands for, `1` when
there is no such suffix. -/
def stofExponent (cs : List Char) : K :=
  match cs with
  | c :: r =>
    if c = 'e' ∨ c = 'E' then
      let sg := splitSign r
      let ds := sg.2.takeWhile Char.isDigit
      if ds = [] then 1
      else if sg.1 then (10 ^ parseDigits ds)⁻¹ else 10 ^ parseDigits ds
    else 1
  | [] => 1

/-- The function `std::stof` on decimal notation, in exact arithmetic: leading
white space, an optional sign, digits with an optional fraction, an optional
exponent; what follows is ignored. `none` stands for the exception thrown when
no conversion can be made. The spellings `inf`, `nan` and hexadecimal literals
have no value in the exact model and are not accepted here. -/
def stof (s : String) : Option K :=
  let cs := s.data.dropWhile isSpace
  let sg := splitSign cs
  let ip := sg.2.takeWhile Char.isDigit
  let r1 := sg.2.dropWhile Char.isDigit
  let fp := match r1 with
    | '.' :: r => r.takeWhile Char.isDigit
    | _ => []
  let r2 := match r1 with
    | '.' :: r => r.dropWhile Char.isDigit
    | _ => r1
  if ip = [] ∧ fp = [] then none
  else
    let m : K := (parseDigits (ip ++ fp) : K) / 10 ^ fp.length * stofExponent r2
    some (if sg.1 then -m else m)

end Stof

/-! ## Keyframe (ofApp.h) -/

/-- The class `Keyframe`. -/
structure Keyframe (K : Type) where
  frameRate : K
  duration : K
  frameNumber : K
  addedNodes : List Ptr
  nStartPos : List (Vec3 K)
  nEndPos : List (Vec3 K)
  nStartRot : List (Vec3 K)
  nEndRot : List (Vec3 K)
  deltaPos : List (Vec3 K)
  deltaRot : List (Vec3 K)

/-- What the loops of `Keyframe::setTheStage` write. -/
structure StageLoop (K : Type) where
  deltaPos : List (Vec3 K)
  deltaRot : List (Vec3 K)
  heap : Heap K

section KeyframeOps

variable {K : Type} [LinearOrderedField K]

/-- The default constructed `Keyframe`. -/
def Keyframe.init : Keyframe K :=
  { frameRate := 60, duration := 1, frameNumber := 0, addedNodes := [],
    nStartPos := [], nEndPos := [], nStartRot := [], nEndRot := [],
    deltaPos := [], deltaRot := [] }

/-- The loop of `Keyframe::getIndex`: `i` is the index of the head of the list and
`index` the value found so far. -/
def getIndexLoop (obj : Ptr) : List Ptr → Nat → Int → Int
  | [], _, index => index
  | a :: rest, i, index => getIndexLoop obj rest (i + 1) (if obj = a then (i : Int) else index)

/-- The method `Keyframe::getIndex`. -/
def Keyframe.getIndex (kf : Keyframe K) (obj : Ptr) : Int :=
  getIndexLoop obj kf.addedNodes 0 (-1)

/-- The method `Keyframe::setStartValues`; `none` when `nStartPos[i]` or
`nStartRot[i]` is out of range. -/
def Keyframe.setStartValues (kf : Keyframe K) (h : Heap K) (obj : Ptr) : Option (Keyframe K) :=
  let i := kf.getIndex obj
  if i = -1 then
    some { kf with
      addedNodes := kf.addedNodes ++ [obj]
      nStartPos := kf.nStartPos ++ [(h obj).position]
      nStartRot := kf.nStartRot ++ [(h obj).rotation]
      nEndPos := kf.nEndPos ++ [(h obj).position]
      nEndRot := kf.nEndRot ++ [(h obj).rotation] }
  else if i.toNat < kf.nStartPos.length ∧ i.toNat < kf.nStartRot.length then
    some { kf with
      nStartPos := kf.nStartPos.set i.toNat (h obj).position
      nStartRot := kf.nStartRot.set i.toNat (h obj).rotation }
  else none

/-- The method `Keyframe::setEndValues`; `none` when `nEndPos[i]` or `nEndRot[i]`
is out of range. -/
def Keyframe.setEndValues (kf : Keyframe K) (h : Heap K) (obj : Ptr) : Option (Keyframe K) :=
  let i := kf.getIndex obj
  if i = -1 then
    some { kf with
      addedNodes := kf.addedNodes ++ [obj]
      nStartPos := kf.nStartPos ++ [(h obj).position]
      nStartRot := kf.nStartRot ++ [(h obj).rotation]
      nEndPos := kf.nEndPos ++ [(h obj).position]
      nEndRot := kf.nEndRot ++ [(h obj).rotation] }
  else if i.toNat < kf.nEndPos.length ∧ i.toNat < kf.nEndRot.length then
    some { kf with
      nEndPos := kf.nEndPos.set i.toNat (h obj).position
      nEndRot := kf.nEndRot.set i.toNat (h obj).rotation }
  else none

/-- One iteration of the loops of `Keyframe::setTheStage` (the forward loop when
`rev` is false, the reverse loop otherwise) on the fields the loops write:
`deltaPos`, `deltaRot` and the tracked objects. `kf` holds the fields that the
loops only read. `none` when one of the four pose tables has no entry `i`. -/
def setTheStageStep (kf : Keyframe K) (rev : Bool) (i : Nat) (st : StageLoop K) :
    Option (StageLoop K) :=
  match kf.addedNodes[i]?, kf.nStartPos[i]?, kf.nStartRot[i]?, kf.nEndPos[i]?, kf.nEndRot[i]? with
  | some p, some sp, some sr, some ep, some er =>
    if rev then
      some { deltaPos := st.deltaPos ++ [Vec3.divS (sp - ep) (kf.frameRate * kf.duration)]
             deltaRot := st.deltaRot ++ [Vec3.divS (sr - er) (kf.frameRate * kf.duration)]
             heap := Heap.set st.heap p { st.heap p with position := ep, rotation := er } }
    else
      some { deltaPos := st.deltaPos ++ [Vec3.divS (ep - sp) (kf.frameRate * kf.duration)]
             deltaRot := st.deltaRot ++ [Vec3.divS (er - sr) (kf.frameRate * kf.duration)]
             heap := Heap.set st.heap p { st.heap p with position := sp, rotation := sr } }
  | _, _, _, _, _ => none

/-- The method `Keyframe::setTheStage`. -/
def Keyframe.setTheStage (kf : Keyframe K) (h : Heap K) (rev : Bool) (second : K) :
    Option (Keyframe K × Heap K) :=
  let kf1 := { kf with duration := second, frameNumber := 0 }
  (forLoop (setTheStageStep kf1 rev) kf1.addedNodes.length 0
      { deltaPos := [], deltaRot := [], heap := h }).map fun st =>
    ({ kf1 with deltaPos := st.deltaPos, deltaRot := st.deltaRot }, st.heap)

/-- One iteration of the loop of `Keyframe::playback`; `none` when `deltaPos[d]`
or `deltaRot[d]` is out of range. -/
def playbackStep (kf : Keyframe K) (cosFunc : K) (d : Nat) (h : Heap K) : Option (Heap K) :=
  match kf.addedNodes[d]?, kf.deltaPos[d]?, kf.deltaRot[d]? with
  | some p, some dp, some dr =>
    let h1 := Heap.set h p
      { h p with position := (h p).position + Vec3.scale (Vec3.divS (-dp) 2) cosFunc }
    some (Heap.set h1 p
      { h1 p with rotation := (h1 p).rotation + Vec3.scale (Vec3.divS (-dr) 2) cosFunc })
  | _, _, _ => none

/-- The method `Keyframe::playback`: the returned flag, then the new state. -/
def Keyframe.playback (F : FloatOps K) (kf : Keyframe K) (h : Heap K) :
    Option (Bool × Keyframe K × Heap K) :=
  let cosFunc := F.cos (F.pi * kf.frameNumber / (kf.frameRate * kf.duration)) - 1
  (forLoop (playbackStep kf cosFunc) kf.addedNodes.length 0 h).map fun h1 =>
    let kf1 := { kf with frameNumber := kf.frameNumber + 1 }
    (decide (kf1.frameNumber < kf1.frameRate * kf1.duration * 2), kf1, h1)

/-- The state after `k` successive calls of `Keyframe::playback`. -/
def playbackTimes (F : FloatOps K) : Nat → Keyframe K × Heap K → Option (Keyframe K × Heap K)
  | 0, st => some st
  | k + 1, st => (playbackTimes F k st).bind fun s => (Keyframe.playback F s.1 s.2).map (fun r => r.2)

/-- The easing coefficient of the specification of `playback`,
`e = (cos (PI * frameNumber / (frameRate * duration)) - 1) / 2`. -/
def easingCoefficient (F : FloatOps K) (kf : Keyframe K) : K :=
  (F.cos (F.pi * kf.frameNumber / (kf.frameRate * kf.duration)) - 1) / 2

/-- The class invariant of `Keyframe`: no node is tracked twice and every pose
table has one entry per tracked node. -/
def Keyframe.WF (kf : Keyframe K) : Prop :=
  kf.addedNodes.Nodup ∧ kf.nStartPos.length = kf.addedNodes.length ∧
  kf.nStartRot.length = kf.addedNodes.length ∧ kf.nEndPos.length = kf.addedNodes.length ∧
  kf.nEndRot.length = kf.addedNodes.length

end KeyframeOps

/-! ## The application (ofApp.h, ofApp.cpp) -/

/-- The state of `ofApp` that the scene and keyframe operations use. `models`
keeps the name of each bound `Mesh`; `next` is the address that the next `new`
returns. Cameras, lights, the gui and the drag flags are left out. -/
structure AppState (K : Type) where
  heap : Heap K
  next : Ptr
  scene : List Ptr
  selected : List Ptr
  animation : Keyframe K
  models : List String
  mods : List Ptr
  jointNumber : Int
  radius : K
  dur : K
  playing : Bool

/-- What `saveToFile` streams to `model.txt` for one joint. -/
structure SavedJoint (K : Type) where
  name : String
  rotate : Vec3 K
  translate : Vec3 K
  parentName : String

/-- How a call of `loadFromFile` ends: it returns early because the file does
not exist, it returns after the last line, an exception of `stof` or `stoi`
leaves the function (with the state reached at the throw), or `splitted[k]` is
read out of range. -/
inductive LoadOutcome (K : Type) where
  | noFile (s : AppState K)
  | loaded (s : AppState K)
  | threw (s : AppState K)
  | undefinedBehaviour

/-- The application state after a call of `loadFromFile` that returns. -/
def LoadOutcome.returned? {K : Type} : LoadOutcome K → Option (AppState K)
  | LoadOutcome.noFile s => some s
  | LoadOutcome.loaded s => some s
  | LoadOutcome.threw _ => none
  | LoadOutcome.undefinedBehaviour => none

/-- The local state of the loop of `removeJoint`. -/
structure RemoveLoop (K : Type) where
  heap : Heap K
  eraseIndex : Int
  re : Int

section App

variable {K : Type} [LinearOrderedField K]

/-- The object built by `new Plane(glm::vec3(0, -2, 0), glm::vec3(0, 1, 0))`. -/
def newPlane : SceneObject K :=
  { parent := none, childList := [], position := ⟨0, -2, 0⟩, rotation := Vec3.zero,
    scale := Vec3.one, pivot := Vec3.zero, isSelectable := false, name := "SceneObject",
    shape := Shape.plane ⟨0, 1, 0⟩ 20 20 }

/-- The object built by `new Joint(p, r)`. -/
def newJoint (p : Vec3 K) (r : K) : SceneObject K :=
  { parent := none, childList := [], position := p, rotation := Vec3.zero,
    scale := Vec3.one, pivot := Vec3.zero, isSelectable := true, name := "joint",
    shape := Shape.joint r }

/-- The state after `ofApp::setup`: the scene holds the ground plane only. -/
def AppState.setup : AppState K :=
  { heap := fun _ => newPlane, next := 1, scene := [0], selected := [],
    animation := Keyframe.init, models := [], mods := [], jointNumber := 0,
    radius := 1 / 5, dur := 1, playing := false }

/-- The method `ofApp::objSelected`. -/
def AppState.objSelected (s : AppState K) : Bool := decide (s.selected.length ≠ 0)

/-- The conversion `(int) x` of a `float`: truncation towards zero. -/
def truncToInt [FloorRing K] (x : K) : Int := if 0 ≤ x then ⌊x⌋ else ⌈x⌉

/-- The expression `((int)(x * 100 + .5)) / 100.0f` of `saveToFile`. -/
def formatComponent [FloorRing K] (x : K) : K := ((truncToInt (x * 100 + 1 / 2) : Int) : K) / 100

/-- The three assignments to `formattedRot` (or `formattedPos`). -/
def formatVec [FloorRing K] (v : Vec3 K) : Vec3 K :=
  ⟨formatComponent v.x, formatComponent v.y, formatComponent v.z⟩

/-- The method `ofApp::saveToFile`: `none` when no root exists (nothing is
written), otherwise the records streamed to the file, one per scene entry from
index 1 on. -/
def saveToFile [FloorRing K] (s : AppState K) : Option (List (SavedJoint K)) :=
  let joints := s.scene.drop 1
  if joints.any (fun p => decide ((s.heap p).parent = none)) then
    some (joints.map fun p =>
      { name := (s.heap p).name
        rotate := formatVec (s.heap p).rotation
        translate := formatVec (s.heap p).position
        parentName := match (s.heap p).parent with
          | some q => (s.heap q).name
          | none => "" })
  else none

/-- The parent linking loop of `loadFromFile`: every scene entry from index 1 on
whose name is `pName` adopts `loaded`. -/
def linkByName (pName : String) (loaded : Ptr) (h : Heap K) (joints : List Ptr) : Heap K :=
  joints.foldl (fun g q => if (g q).name = pName then addChild g q loaded else g) h

/-- The body of the `while` loop of `loadFromFile` for one non-empty line. -/
def loadLine (s : AppState K) (line : String) : LoadOutcome K :=
  let splitted := splitWords line
  match splitted[8]?, splitted[9]?, splitted[10]? with
  | some t8, some t9, some t10 =>
    match (stof (substr t8 1 (t8.length - 1)) : Option K),
          (stof (substr t9 0 (t9.length - 1)) : Option K),
          (stof (substr t10 0 (t10.length - 1)) : Option K) with
    | some px, some py, some pz =>
      let loaded := s.next
      let s1 := { s with heap := Heap.set s.heap loaded (newJoint ⟨px, py, pz⟩ s.radius),
                         next := s.next + 1 }
      match splitted[2]?, splitted[4]?, splitted[5]?, splitted[6]? with
      | some t2, some t4, some t5, some t6 =>
        let s2 := { s1 with heap := Heap.set s1.heap loaded { s1.heap loaded with name := t2 } }
        match (stof (substr t4 1 (t4.length - 1)) : Option K),
              (stof (substr t5 0 (t5.length - 1)) : Option K),
              (stof (substr t6 0 (t6.length - 1)) : Option K) with
        | some rx, some ry, some rz =>
          let s3 := { s2 with
            heap := Heap.set s2.heap loaded { s2.heap loaded with rotation := ⟨rx, ry, rz⟩ } }
          match splitted[12]? with
          | some t12 =>
            let pName := substr t12 0 (t12.length - 1)
            let s4 := if pName.isEmpty then s3
              else { s3 with heap := linkByName pName loaded s3.heap (s3.scene.drop 1) }
            let s5 := { s4 with scene := s4.scene ++ [loaded] }
            match stoi (substr t2 (t2.length - 1) t2.length) with
            | some k => LoadOutcome.loaded { s5 with jointNumber := max s5.jointNumber k }
            | none => LoadOutcome.threw s5
          | none => LoadOutcome.undefinedBehaviour
        | _, _, _ => LoadOutcome.threw s2
      | _, _, _, _ => LoadOutcome.undefinedBehaviour
    | _, _, _ => LoadOutcome.threw s
  | _, _, _ => LoadOutcome.undefinedBehaviour

/-- The `while (!line.empty())` loop of `loadFromFile` over the remaining lines
of the buffer, followed by `jointNumber++`. -/
def loadLines : List String → AppState K → LoadOutcome K
  | [], s => LoadOutcome.loaded { s with jointNumber := s.jointNumber + 1 }
  | line :: rest, s =>
    if line.isEmpty then LoadOutcome.loaded { s with jointNumber := s.jointNumber + 1 }
    else
      match loadLine s line with
      | LoadOutcome.loaded s1 => loadLines rest s1
      | other => other

/-- The method `ofApp::loadFromFile`; `file` is `none` when `model.txt` does not
exist and the list of its lines otherwise. -/
def loadFromFile (file : Option (List String)) (s : AppState K) : LoadOutcome K :=
  match file with
  | none => LoadOutcome.noFile s
  | some lines =>
    let plane := s.next
    let s1 := { s with
      heap := Heap.set s.heap plane newPlane
      next := s.next + 1
      scene := [plane]
      animation := { s.animation with
        addedNodes := [], nStartPos := [], nEndPos := [], nStartRot := [], nEndRot := [] }
      models := []
      mods := [] }
    loadLines lines s1

/-- The method `ofApp::createJoint`; `point` is the value that `mouseToDragPlane`
stored for the mouse position. `none` when the fuel of `getMatrix` runs out. -/
def createJoint (F : FloatOps K) (fuel : Nat) (point : Vec3 K) (s : AppState K) :
    Option (AppState K) :=
  let created := s.next
  let j := newJoint (Vec3.zero : Vec3 K) s.radius
  let h1 := Heap.set s.heap created { j with name := j.name ++ toString s.jointNumber }
  let h2 : Option (Heap K) :=
    match s.selected with
    | sel :: _ =>
      (getPosition F h1 fuel sel).bind fun wp =>
        (setPosition F h1 fuel created (point - wp)).map fun h => addChild h sel created
    | [] => setPosition F h1 fuel created point
  h2.map fun h =>
    { s with heap := h, next := s.next + 1, scene := s.scene ++ [created],
             jointNumber := s.jointNumber + 1 }

/-- The body of the loop of `removeJoint` for scene index `i`. The index handed
to `childList.erase` is computed in the integers; `none` when it falls outside
the list, and when the node is its own parent (the inner loop then appends to
the list that bounds it). -/
def removeJointVisit (sel : Ptr) (scene : List Ptr) (i : Nat) (st : RemoveLoop K) :
    Option (RemoveLoop K) :=
  match scene[i]? with
  | none => none
  | some x =>
    if sel = x then
      match (st.heap x).parent with
      | some p =>
        if p = x then none
        else
          let children := (st.heap x).childList
          let h1 := children.foldl (fun g c => addChild g p c) st.heap
          let re : Int := if children.length = 0 then st.re else (children.length : Int)
          let size : Int := ((h1 p).childList.length : Int)
          let idx : Int := if (h1 x).childList.length = 0 then size - re - 2 else size - re - 1
          if 0 ≤ idx ∧ idx < size then
            some { heap := Heap.set h1 p { h1 p with childList := (h1 p).childList.eraseIdx idx.toNat },
                   eraseIndex := (i : Int), re := re }
          else none
      | none =>
        let h1 := (st.heap x).childList.foldl
          (fun g c => Heap.set g c { g c with parent := none }) st.heap
        some { st with heap := h1, eraseIndex := (i : Int) }
    else some st

/-- The method `ofApp::removeJoint`; `none` when the call has undefined
behaviour (an `erase` outside its vector) or does not return. -/
def removeJoint (s : AppState K) : Option (AppState K) :=
  match s.selected with
  | [] => some s
  | sel :: _ =>
    (forLoop (removeJointVisit sel s.scene) (s.scene.length - 1) 1
        { heap := s.heap, eraseIndex := -1, re := -1 }).bind fun st =>
      if 0 ≤ st.eraseIndex ∧ st.eraseIndex < (s.scene.length : Int) then
        some { s with
          heap := st.heap
          scene := s.scene.eraseIdx st.eraseIndex.toNat
          selected := []
          animation := { s.animation with
            addedNodes := [], nStartPos := [], nEndPos := [], nStartRot := [], nEndRot := [] }
          models := []
          mods := [] }
      else none

/-- The loop of `mousePressed` that picks among the hits; `nearestDist` is `none`
while it still holds `infinity`. -/
def pickNearest (F : FloatOps K) (h : Heap K) (camPos : Vec3 K) :
    List Ptr → Option K → Ptr → Ptr
  | [], _, selectedObj => selectedObj
  | n :: rest, nearestDist, selectedObj =>
    let dist := Vec3.length F ((h n).position - camPos)
    let nearer : Bool := match nearestDist with
      | none => true
      | some d => decide (dist < d)
    if nearer then pickNearest F h camPos rest (some dist) n
    else pickNearest F h camPos rest nearestDist selectedObj

/-- The selection made by `ofApp::mousePressed`. `camInput` is
`mainCam.getMouseInputEnabled()`, `intersects p` is the result of
`scene[i]->intersect` for the pick ray on the object at `p`, and `camPos` is
`theCam->getPosition()`. -/
def mousePressed (F : FloatOps K) (camInput : Bool) (intersects : Ptr → Bool)
    (camPos : Vec3 K) (s : AppState K) : AppState K :=
  if camInput then s
  else
    let hits := s.scene.filter fun p => (s.heap p).isSelectable && intersects p
    match hits with
    | [] => { s with selected := [] }
    | h0 :: _ => { s with selected := [pickNearest F s.heap camPos hits none h0] }

end App

/-! ## Rays and the ground plane (Primitives.h, Primitives.cpp) -/

/-- The class `Ray`: origin `p` and direction `d`. -/
structure Ray (K : Type) where
  p : Vec3 K
  d : Vec3 K

section PlaneOps

variable {K : Type} [LinearOrderedField K]

/-- The vector `t * v` for a scalar `t`. -/
def Vec3.smul (t : K) (v : Vec3 K) : Vec3 K := ⟨t * v.x, t * v.y, t * v.z⟩

/-- The method `Ray::evalPoint`. -/
def Ray.evalPoint (r : Ray K) (t : K) : Vec3 K := r.p + Vec3.smul t r.d

/-- The function `glm::intersectRayPlane` of glm 0.9.9, with the machine epsilon
of `float` as a parameter: `some dist` when it reports a hit and stores `dist`,
`none` when it reports no hit. -/
def glmIntersectRayPlane (epsilon : K) (orig dir planeOrig planeNormal : Vec3 K) : Option K :=
  let d := Vec3.dot dir planeNormal
  if |d| > epsilon then
    let dist := Vec3.dot (planeOrig - orig) planeNormal / d
    if dist > 0 then some dist else none
  else none

/-- The method `Plane::intersect` of a plane with the given `position`, `normal`,
`width` and `height`. `intersectRayPlane orig dir planeOrig planeNormal` stands
for `glm::intersectRayPlane`: `some dist` when it reports a hit and stores
`dist`, `none` when it reports no hit. `point` and `normalAtIntersect` are the
values of the two reference parameters before the call; the result is the
returned flag and the values of the two parameters after the call. -/
def planeIntersect (intersectRayPlane : Vec3 K → Vec3 K → Vec3 K → Vec3 K → Option K)
    (position normal : Vec3 K) (width height : K) (ray : Ray K)
    (point normalAtIntersect : Vec3 K) : Bool × Vec3 K × Vec3 K :=
  match intersectRayPlane ray.p ray.d position normal with
  | some dist =>
    let point1 := ray.evalPoint dist
    let xrange0 := position.x - width / 2
    let xrange1 := position.x + width / 2
    let zrange0 := position.z - height / 2
    let zrange1 := position.z + height / 2
    (decide (point1.x < xrange1 ∧ point1.x > xrange0 ∧ point1.z < zrange1 ∧ point1.z > zrange0),
      point1, normal)
  | none => (false, point, normalAtIntersect)

/-- Rotation about the x axis by an angle with the given cosine `c` and sine `s`. -/
def rotX (c s : K) : Mat4 K :=
  !![1, 0, 0, 0;
     0, c, -s, 0;
     0, s, c, 0;
     0, 0, 0, 1]

/-- Rotation about the y axis by an angle with the given cosine `c` and sine `s`. -/
def rotY (c s : K) : Mat4 K :=
  !![c, 0, s, 0;
     0, 1, 0, 0;
     -s, 0, c, 0;
     0, 0, 0, 1]

/-- Rotation about the z axis by an angle with the given cosine `c` and sine `s`. -/
def rotZ (c s : K) : Mat4 K :=
  !![c, -s, 0, 0;
     s, c, 0, 0;
     0, 0, 1, 0;
     0, 0, 0, 1]

/-- The rotation named in the specification of `getLocalMatrix`: the YXZ Euler
matrix, yaw about y, then pitch about x, then roll about z, of the rotation
vector given in degrees. -/
def specRotate (F : FloatOps K) (rotation : Vec3 K) : Mat4 K :=
  rotY (F.cos (radians F rotation.y)) (F.sin (radians F rotation.y))
    * rotX (F.cos (radians F rotation.x)) (F.sin (radians F rotation.x))
    * rotZ (F.cos (radians F rotation.z)) (F.sin (radians F rotation.z))

end PlaneOps

/-! ## Handlers and reachable states -/

/-- The keys of `ofApp::keyPressed` that act on the scene or on the animation.
`create` carries the point that `mouseToDragPlane` stores for the mouse position
and `load` the content of `model.txt` (`none` when the file does not exist). -/
inductive Key (K : Type) where
  | recordStart
  | recordEnd
  | create (point : Vec3 K)
  | load (file : Option (List String))
  | play
  | playReverse
  | backspace

section Handlers

variable {K : Type} [LinearOrderedField K]

/-- The part of `ofApp::update` that advances the animation; `none` when
`playback` reads `deltaPos[d]` or `deltaRot[d]` out of range. The loop that
moves the bound meshes writes to the external model objects only. -/
def update (F : FloatOps K) (s : AppState K) : Option (AppState K) :=
  if s.playing then
    (s.animation.playback F s.heap).map fun r =>
      { s with playing := r.1, animation := r.2.1, heap := r.2.2 }
  else some s

/-- The method `ofApp::keyPressed` on the keys of `Key`; `none` when the handler
has undefined behaviour or is left by an exception. -/
def keyPressed (F : FloatOps K) (fuel : Nat) (key : Key K) (s : AppState K) :
    Option (AppState K) :=
  match key with
  | Key.recordStart =>
    match s.selected with
    | sel :: _ => (s.animation.setStartValues s.heap sel).map fun kf => { s with animation := kf }
    | [] => some s
  | Key.recordEnd =>
    match s.selected with
    | sel :: _ => (s.animation.setEndValues s.heap sel).map fun kf => { s with animation := kf }
    | [] => some s
  | Key.create point => createJoint F fuel point s
  | Key.load file =>
    match loadFromFile file s with
    | LoadOutcome.noFile s1 => some s1
    | LoadOutcome.loaded s1 => some s1
    | LoadOutcome.threw _ => none
    | LoadOutcome.undefinedBehaviour => none
  | Key.play =>
    if s.playing then some s
    else
      (s.animation.setTheStage s.heap false (s.dur / 2)).map fun r =>
        { s with playing := true, animation := r.1, heap := r.2 }
  | Key.playReverse =>
    if s.playing then some s
    else
      (s.animation.setTheStage s.heap true (s.dur / 2)).map fun r =>
        { s with playing := true, animation := r.1, heap := r.2 }
  | Key.backspace => removeJoint s

/-- The events that the application handles: a key press, a mouse press (with
the camera input flag, the result of the intersection tests for the pick ray
and the camera position), and a call of `update`. -/
inductive Event (K : Type) where
  | key (k : Key K)
  | mouse (camInput : Bool) (intersects : Ptr → Bool) (camPos : Vec3 K)
  | tick

/-- The handler of one event; `none` when it has undefined behaviour or is left
by an exception. -/
def handleEvent (F : FloatOps K) (fuel : Nat) (e : Event K) (s : AppState K) :
    Option (AppState K) :=
  match e with
  | Event.key k => keyPressed F fuel k s
  | Event.mouse camInput intersects camPos => some (mousePressed F camInput intersects camPos s)
  | Event.tick => update F s

/-- The handlers of a list of events, one after the other. -/
def handleEvents (F : FloatOps K) (fuel : Nat) : List (Event K) → AppState K → Option (AppState K)
  | [], s => some s
  | e :: rest, s => (handleEvent F fuel e s).bind (handleEvents F fuel rest)

/-- The parent links of the node at `p` reach a node without parent after
finitely many steps. -/
inductive Rooted (h : Heap K) : Ptr → Prop
  | root (p : Ptr) : (h p).parent = none → Rooted h p
  | step (p q : Ptr) : (h p).parent = some q → Rooted h q → Rooted h p

/-- The application states reached from the state after `setup` by mouse
presses, `createJoint` and `removeJoint`. A step of `createJoint` or
`removeJoint` is a call that returns. -/
inductive Reachable (F : FloatOps K) : AppState K → Prop
  | setup : Reachable F AppState.setup
  | mouse (s : AppState K) (camInput : Bool) (intersects : Ptr → Bool) (camPos : Vec3 K) :
      Reachable F s → Reachable F (mousePressed F camInput intersects camPos s)
  | create (s s1 : AppState K) (fuel : Nat) (point : Vec3 K) :
      Reachable F s → createJoint F fuel point s = some s1 → Reachable F s1
  | remove (s s1 : AppState K) :
      Reachable F s → removeJoint s = some s1 → Reachable F s1

/-- What the scene operations keep true: the scene has no repeated entry; scene
entries, selected nodes, listed children and parents are allocated addresses;
every child listed by a scene node has that node as parent; and the parent links
of every node end at a root. -/
structure SceneInv (s : AppState K) : Prop where
  nodup : s.scene.Nodup
  scene_lt : ∀ p ∈ s.scene, p < s.next
  sel_lt : ∀ p ∈ s.selected, p < s.next
  child_lt : ∀ q, ∀ c ∈ (s.heap q).childList, c < s.next
  parent_lt : ∀ q p, (s.heap q).parent = some p → p < s.next
  child_parent : ∀ x ∈ s.scene, ∀ c ∈ (s.heap x).childList, (s.heap c).parent = some x
  rooted : ∀ p, Rooted s.heap p

/-- The `Keyframe` states reached from the default constructed one by calls of
`setStartValues` and `setEndValues` that return, on any node and with any
current pose of the nodes. -/
inductive KeyframeReachable : Keyframe K → Prop
  | init : KeyframeReachable Keyframe.init
  | start (kf kf1 : Keyframe K) (h : Heap K) (obj : Ptr) :
      KeyframeReachable kf → kf.setStartValues h obj = some kf1 → KeyframeReachable kf1
  | stop (kf kf1 : Keyframe K) (h : Heap K) (obj : Ptr) :
      KeyframeReachable kf → kf.setEndValues h obj = some kf1 → KeyframeReachable kf1

end Handlers

/-! ## Example states -/

section Examples

variable {K : Type} [LinearOrderedField K]

/-- A two node hierarchy: the joint at address 1 is a child of the joint at
address 0. -/
def exampleChainHeap : Heap K := fun p =>
  if p = 1 then { newJoint (⟨0, 1, 0⟩ : Vec3 K) 1 with parent := some 0 }
  else { newJoint (⟨1, 0, 0⟩ : Vec3 K) 1 with childList := [1] }

/-- A single root joint that has been moved to `(1, 0, 0)`. -/
def exampleMovedRoot : Heap K := fun _ => newJoint (⟨1, 0, 0⟩ : Vec3 K) (1 / 5)

/-- A scene with the ground plane at address 0 and three joints: the root at
address 1 has the children at addresses 2 and 3 (in this order), and the joint at
address 2 is selected. -/
def exampleSiblings : AppState K :=
  { (AppState.setup : AppState K) with
    heap := fun p =>
      if p = 1 then { newJoint (Vec3.zero : Vec3 K) (1 / 5) with name := "joint0", childList := [2, 3] }
      else if p = 2 then { newJoint (⟨1, 0, 0⟩ : Vec3 K) (1 / 5) with name := "joint1", parent := some 1 }
      else if p = 3 then { newJoint (⟨0, 1, 0⟩ : Vec3 K) (1 / 5) with name := "joint2", parent := some 1 }
      else newPlane
    next := 4
    scene := [0, 1, 2, 3]
    selected := [2]
    jointNumber := 3 }

/-- A scene with the ground plane at address 0 and the chain of joints
`1 → 2 → 3`; the middle joint is selected. -/
def exampleChainScene : AppState K :=
  { (AppState.setup : AppState K) with
    heap := fun p =>
      if p = 1 then { newJoint (Vec3.zero : Vec3 K) (1 / 5) with name := "joint0", childList := [2] }
      else if p = 2 then
        { newJoint (⟨1, 0, 0⟩ : Vec3 K) (1 / 5) with
          name := "joint1", parent := some 1, childList := [3] }
      else if p = 3 then { newJoint (⟨0, 1, 0⟩ : Vec3 K) (1 / 5) with name := "joint2", parent := some 2 }
      else newPlane
    next := 4
    scene := [0, 1, 2, 3]
    selected := [2]
    jointNumber := 3 }

/-- A keyframe table that tracks the joint at address 0 with start pose
`(0, 0, 0)`, `(0, 0, 0)` and end pose `(1, 2, 3)`, `(0, 90, 0)`. -/
def exampleKeyframe : Keyframe K :=
  { (Keyframe.init : Keyframe K) with
    addedNodes := [0]
    nStartPos := [⟨0, 0, 0⟩]
    nStartRot := [⟨0, 0, 0⟩]
    nEndPos := [⟨1, 2, 3⟩]
    nEndRot := [⟨0, 90, 0⟩] }

/-- A scene with the ground plane and one root joint whose position is
`(-1.014, 0, 0)` and whose rotation is `(0, -0.016, 0)`. -/
def exampleNegativePose : AppState K :=
  { (AppState.setup : AppState K) with
    heap := fun p =>
      if p = 1 then
        { newJoint (⟨-1014 / 1000, 0, 0⟩ : Vec3 K) (1 / 5) with
          name := "joint0", rotation := ⟨0, -16 / 1000, 0⟩ }
      else newPlane
    next := 2
    scene := [0, 1]
    jointNumber := 1 }

/-- A scene with the ground plane and one root joint at the origin that has been
rotated by 180 degrees about its y axis and is selected. -/
def exampleRotatedParent : AppState K :=
  { (AppState.setup : AppState K) with
    heap := fun p =>
      if p = 1 then
        { newJoint (Vec3.zero : Vec3 K) (1 / 5) with name := "joint0", rotation := ⟨0, 180, 0⟩ }
      else newPlane
    next := 2
    scene := [0, 1]
    selected := [1]
    jointNumber := 1 }

/-- A scene with the ground plane and three joints: a root at `(100, 0, 0)`
(address 1), a root at `(5, 0, 0)` (address 2), and a child of the first root
with local position `(1, 0, 0)` (address 3), whose world position is hence
`(101, 0, 0)`. -/
def examplePickScene : AppState K :=
  { (AppState.setup : AppState K) with
    heap := fun p =>
      if p = 1 then { newJoint (⟨100, 0, 0⟩ : Vec3 K) (1 / 5) with name := "joint0", childList := [3] }
      else if p = 2 then { newJoint (⟨5, 0, 0⟩ : Vec3 K) (1 / 5) with name := "joint1" }
      else if p = 3 then { newJoint (⟨1, 0, 0⟩ : Vec3 K) (1 / 5) with name := "joint2", parent := some 1 }
      else newPlane
    next := 4
    scene := [0, 1, 2, 3]
    jointNumber := 3 }

/-- A well-formed `model.txt` with a single root joint. -/
def exampleOneJointFile : List String :=
  ["create -joint joint0 -rotate <0, 0, 0> -translate <0, 0, 0> -parent ;"]

/-- The table `exampleKeyframe` with one stored delta per tracked node, as
`setTheStage` leaves it. -/
def exampleStagedKeyframe : Keyframe K :=
  { (exampleKeyframe : Keyframe K) with
    deltaPos := [⟨1, 2, 3⟩]
    deltaRot := [⟨0, 90, 0⟩] }

/-- Two joints are created, the first is selected, its start pose is recorded
and playback is started; while the animation is playing the second joint is
selected and its start pose is recorded. -/
def exampleRecordWhilePlaying : List (Event K) :=
  [Event.key (Key.create ⟨0, 0, 0⟩), Event.key (Key.create ⟨1, 0, 0⟩),
   Event.mouse false (fun p => decide (p = 1)) ⟨0, 0, 10⟩, Event.key Key.recordStart,
   Event.key Key.play,
   Event.mouse false (fun p => decide (p = 2)) ⟨0, 0, 10⟩, Event.key Key.recordStart]

/-- A joint is created and selected, its start pose is recorded, playback is
started, and the joint is deleted while the animation is playing. -/
def exampleDeleteWhilePlaying : List (Event K) :=
  [Event.key (Key.create ⟨0, 0, 0⟩),
   Event.mouse false (fun p => decide (p = 1)) ⟨0, 0, 10⟩, Event.key Key.recordStart,
   Event.key Key.play, Event.key Key.backspace]

/-- A well-formed `model.txt` with the joints `joint9` and `joint10`. -/
def exampleTwoDigitFile : List String :=
  ["create -joint joint9 -rotate <0, 0, 0> -translate <0, 0, 0> -parent ;",
   "create -joint joint10 -rotate <0, 0, 0> -translate <0, 1, 0> -parent joint9;"]

end Examples

/-! ## Theorems -/

section Theorems

set_option linter.unusedSectionVars false

variable {K : Type} [LinearOrderedField K]

/-! ### World matrices -/

theorem getMatrix_of_parentPath (F : FloatOps K) (h : Heap K) :
    ∀ (rest : List Ptr) (n : Ptr) (fuel : Nat), parentPath h (n :: rest) = true →
      (n :: rest).length ≤ fuel →
      getMatrix F h fuel n
        = some (((n :: rest).reverse.map fun a => getLocalMatrix F (h a)).prod) := by
  intro rest
  induction rest with
  | nil =>
    intro n fuel hp hf
    cases fuel with
    | zero => simp at hf
    | succ f =>
      have hn : (h n).parent = none := by simpa [parentPath] using hp
      simp [getMatrix, hn]
  | cons p rest ih =>
    intro n fuel hp hf
    cases fuel with
    | zero => simp at hf
    | succ f =>
      have hp2 : (h n).parent = some p ∧ parentPath h (p :: rest) = true := by
        simpa [parentPath] using hp
      have hf2 : (p :: rest).length ≤ f := by
        simp only [List.length_cons] at hf ⊢
        omega
      have := ih p f hp2.2 hf2
      simp only [getMatrix, hp2.1, this, Option.map_some']
      simp [List.prod_append, mul_assoc]

/-- C1: in an acyclic hierarchy (the parent links of `n` reach a root along
`path`), `getMatrix` returns with enough fuel; its value is the ordered product
of the local matrices from the root down to `n`; it is the local matrix when `n`
has no parent, and the parent's world matrix times the local matrix when `n`
has a parent. -/
theorem getMatrix_recursive (F : FloatOps K) (h : Heap K) (path : List Ptr) (n : Ptr)
    (fuel : Nat) (hpath : parentPath h path = true) (hhead : path.head? = some n)
    (hfuel : path.length ≤ fuel) :
    getMatrix F h fuel n = some ((path.reverse.map fun a => getLocalMatrix F (h a)).prod)
    ∧ ((h n).parent = none → getMatrix F h fuel n = some (getLocalMatrix F (h n)))
    ∧ (∀ p, (h n).parent = some p →
        ∃ M, getMatrix F h fuel p = some M
          ∧ getMatrix F h fuel n = some (M * getLocalMatrix F (h n))) := by
  cases path with
  | nil => simp at hhead
  | cons a rest =>
    have ha : a = n := by simpa using hhead
    subst ha
    refine ⟨getMatrix_of_parentPath F h rest a fuel hpath hfuel, ?_, ?_⟩
    · intro hn
      cases fuel with
      | zero => simp at hfuel
      | succ f => simp [getMatrix, hn]
    · intro p hp
      cases rest with
      | nil =>
        have : (h a).parent = none := by simpa [parentPath] using hpath
        rw [this] at hp
        cases hp
      | cons q rest =>
        have hp2 : (h a).parent = some q ∧ parentPath h (q :: rest) = true := by
          simpa [parentPath] using hpath
        have hq : q = p := by
          have := hp2.1
          rw [hp] at this
          exact (Option.some.inj this).symm
        subst hq
        cases fuel with
        | zero => simp at hfuel
        | succ f =>
          have hf1 : (q :: rest).length ≤ f := by
            simp only [List.length_cons] at hfuel ⊢
            omega
          have hf2 : (q :: rest).length ≤ f + 1 := by omega
          have e1 := getMatrix_of_parentPath F h rest q f hp2.2 hf1
          have e2 := getMatrix_of_parentPath F h rest q (f + 1) hp2.2 hf2
          refine ⟨_, e2, ?_⟩
          simp only [getMatrix, hp, e1, Option.map_some']

/-- Witness of C1 on the two node hierarchy `exampleChainHeap`. -/
theorem getMatrix_recursive_witness :
    getMatrix (⟨Real.cos, Real.sin, Real.sqrt, Real.pi⟩ : FloatOps ℝ) exampleChainHeap 2 1
      = some (([1, 0].reverse.map fun a =>
          getLocalMatrix (⟨Real.cos, Real.sin, Real.sqrt, Real.pi⟩ : FloatOps ℝ)
            (exampleChainHeap a)).prod) :=
  (getMatrix_recursive (⟨Real.cos, Real.sin, Real.sqrt, Real.pi⟩ : FloatOps ℝ)
    exampleChainHeap [1, 0] 1 2 (by simp [parentPath, exampleChainHeap, newJoint]) rfl
    (by simp)).1

/-! ### Matrices of translations and of unrotated joints -/

theorem Vec3.add_def (a b : Vec3 K) : a + b = ⟨a.x + b.x, a.y + b.y, a.z + b.z⟩ := rfl

theorem Vec3.sub_def (a b : Vec3 K) : a - b = ⟨a.x - b.x, a.y - b.y, a.z - b.z⟩ := rfl

theorem Vec3.neg_def (a : Vec3 K) : -a = ⟨-a.x, -a.y, -a.z⟩ := rfl

theorem inverse_eq_inv (m : Mat4 K) : inverse m = m⁻¹ := by
  simp [inverse, Matrix.inv_def, Ring.inverse_eq_inv']

theorem translate_mul_translate (a b : Vec3 K) :
    translate a * translate b = translate (a + b) := by
  ext i j
  fin_cases i <;> fin_cases j <;>
    simp [translate, Matrix.mul_apply, Fin.sum_univ_four, Matrix.vecHead, Matrix.vecTail,
      add_comm, Vec3.add_def]

theorem translate_zero : translate (Vec3.zero : Vec3 K) = 1 := by
  ext i j
  fin_cases i <;> fin_cases j <;> simp [translate, Vec3.zero, Matrix.vecHead, Matrix.vecTail]

theorem inverse_translate (a : Vec3 K) : inverse (translate a) = translate (-a) := by
  rw [inverse_eq_inv]
  apply Matrix.inv_eq_left_inv
  rw [translate_mul_translate]
  have : -a + a = (Vec3.zero : Vec3 K) := by
    cases a
    simp [Vec3.zero, Vec3.add_def, Vec3.neg_def]
  rw [this, translate_zero]

theorem transformPoint_translate (a p : Vec3 K) : transformPoint (translate a) p = p + a := by
  simp [transformPoint, translate, Matrix.mulVec, Matrix.dotProduct, Fin.sum_univ_four,
    Matrix.vecHead, Matrix.vecTail, Vec3.add_def]

theorem scaleMat_one : scaleMat (Vec3.one : Vec3 K) = 1 := by
  ext i j
  fin_cases i <;> fin_cases j <;> simp [scaleMat, Vec3.one, Matrix.vecHead, Matrix.vecTail]

theorem eulerAngleYXZ_zero (F : FloatOps K) (hc : F.cos 0 = 1) (hs : F.sin 0 = 0) :
    eulerAngleYXZ F 0 0 0 = 1 := by
  ext i j
  fin_cases i <;> fin_cases j <;>
    simp [eulerAngleYXZ, hc, hs, Matrix.vecHead, Matrix.vecTail]

theorem getLocalMatrix_unrotated (F : FloatOps K) (hc : F.cos 0 = 1) (hs : F.sin 0 = 0)
    (o : SceneObject K) (hr : o.rotation = Vec3.zero) (hsc : o.scale = Vec3.one)
    (hp : o.pivot = Vec3.zero) : getLocalMatrix F o = translate o.position := by
  have e1 : getRotateMatrix F o = 1 := by
    simp [getRotateMatrix, hr, Vec3.zero, radians, eulerAngleYXZ_zero F hc hs]
  have e2 : getScaleMatrix o = 1 := by
    have : (⟨o.scale.x, o.scale.y, o.scale.z⟩ : Vec3 K) = Vec3.one := by rw [← hsc]
    simp [getScaleMatrix, this, scaleMat_one]
  have e3 : translate (⟨-o.pivot.x, -o.pivot.y, -o.pivot.z⟩ : Vec3 K) = 1 := by
    rw [hp]
    simpa [Vec3.zero] using (translate_zero : translate (Vec3.zero : Vec3 K) = 1)
  have e4 : translate (⟨o.pivot.x, o.pivot.y, o.pivot.z⟩ : Vec3 K) = 1 := by
    rw [hp]
    simpa [Vec3.zero] using (translate_zero : translate (Vec3.zero : Vec3 K) = 1)
  simp only [getLocalMatrix, e1, e2, e3, e4, mul_one, getTranslateMatrix]

/-- C2: on the root joint of `exampleMovedRoot`, whose local position is
`(1, 0, 0)`, `setPosition (5, 0, 0)` stores the local position `(4, 0, 0)` and
`getPosition` then returns `(4, 0, 0)`, not the point that was set. -/
theorem setPosition_getPosition_movedRoot :
    (setPosition (⟨Real.cos, Real.sin, Real.sqrt, Real.pi⟩ : FloatOps ℝ) exampleMovedRoot 1 0
        ⟨5, 0, 0⟩).bind
      (fun h => getPosition (⟨Real.cos, Real.sin, Real.sqrt, Real.pi⟩ : FloatOps ℝ) h 1 0)
      = some ⟨4, 0, 0⟩ := by
  have e1 : getLocalMatrix (⟨Real.cos, Real.sin, Real.sqrt, Real.pi⟩ : FloatOps ℝ)
      (exampleMovedRoot 0) = translate ⟨1, 0, 0⟩ :=
    getLocalMatrix_unrotated _ Real.cos_zero Real.sin_zero _ rfl rfl rfl
  have hpar : (exampleMovedRoot (K := ℝ) 0).parent = none := rfl
  simp only [setPosition, getPosition, getMatrix, hpar, e1, Option.map_some', Option.some_bind,
    Heap.set, if_true, inverse_translate, transformPoint_translate]
  norm_num [Vec3.zero, Vec3.add_def, Vec3.neg_def]
  rw [getLocalMatrix_unrotated _ Real.cos_zero Real.sin_zero _ rfl rfl rfl,
    transformPoint_translate]
  norm_num [Vec3.add_def]

/-! ### Loops -/

theorem forLoop_invariant {σ : Type} (body : Nat → σ → Option σ) (P : Nat → σ → Prop) :
    ∀ (n start : Nat) (s : σ), P start s →
      (∀ i t, start ≤ i → i < start + n → P i t → ∃ t', body i t = some t' ∧ P (i + 1) t') →
      ∃ s', forLoop body n start s = some s' ∧ P (start + n) s' := by
  intro n
  induction n with
  | zero =>
    intro start s h0 _
    exact ⟨s, rfl, by simpa using h0⟩
  | succ n ih =>
    intro start s h0 hstep
    obtain ⟨t, ht, hPt⟩ := hstep start s (le_refl _) (by omega) h0
    obtain ⟨s', hs', hP'⟩ := ih (start + 1) t hPt (fun i u hi1 hi2 hPu =>
      hstep i u (by omega) (by omega) hPu)
    refine ⟨s', ?_, ?_⟩
    · simp [forLoop, ht, hs']
    · have : start + (n + 1) = start + 1 + n := by omega
      rw [this]
      exact hP'

theorem nodup_getElem?_inj {l : List Ptr} (hl : l.Nodup) {i j : Nat} {a : Ptr}
    (hi : l[i]? = some a) (hj : l[j]? = some a) : i = j := by
  obtain ⟨hi1, hi2⟩ := List.getElem?_eq_some.1 hi
  obtain ⟨hj1, hj2⟩ := List.getElem?_eq_some.1 hj
  exact (List.Nodup.getElem_inj_iff hl).1 (hi2.trans hj2.symm)

/-! ### Keyframe playback -/

theorem getElem?_snoc_lt {α : Type} (l : List α) (x : α) {j : Nat} (hj : j < l.length) :
    (l ++ [x])[j]? = l[j]? := List.getElem?_append_left hj

theorem getElem?_snoc_length {α : Type} (l : List α) (x : α) :
    (l ++ [x])[l.length]? = some x := by simp

theorem setTheStage_spec (kf : Keyframe K) (h : Heap K) (rev : Bool) (d : K) (hwf : kf.WF) :
    ∃ dP dR h0,
      kf.setTheStage h rev d
        = some ({ kf with duration := d, frameNumber := 0, deltaPos := dP, deltaRot := dR }, h0)
      ∧ dP.length = kf.addedNodes.length ∧ dR.length = kf.addedNodes.length
      ∧ ∀ (j : Nat) node sp sr ep er, kf.addedNodes[j]? = some node → kf.nStartPos[j]? = some sp →
          kf.nStartRot[j]? = some sr → kf.nEndPos[j]? = some ep → kf.nEndRot[j]? = some er →
          dP[j]? = some (Vec3.divS (if rev then sp - ep else ep - sp) (kf.frameRate * d))
          ∧ dR[j]? = some (Vec3.divS (if rev then sr - er else er - sr) (kf.frameRate * d))
          ∧ (h0 node).position = (if rev then ep else sp)
          ∧ (h0 node).rotation = (if rev then er else sr) := by
  obtain ⟨hnd, h1, h2, h3, h4⟩ := hwf
  let kf1 : Keyframe K := { kf with duration := d, frameNumber := 0 }
  let P : Nat → StageLoop K → Prop := fun i st =>
    st.deltaPos.length = i ∧ st.deltaRot.length = i ∧
    ∀ j, j < i → ∀ node sp sr ep er, kf.addedNodes[j]? = some node → kf.nStartPos[j]? = some sp →
      kf.nStartRot[j]? = some sr → kf.nEndPos[j]? = some ep → kf.nEndRot[j]? = some er →
      st.deltaPos[j]? = some (Vec3.divS (if rev then sp - ep else ep - sp) (kf.frameRate * d))
      ∧ st.deltaRot[j]? = some (Vec3.divS (if rev then sr - er else er - sr) (kf.frameRate * d))
      ∧ (st.heap node).position = (if rev then ep else sp)
      ∧ (st.heap node).rotation = (if rev then er else sr)
  have hloop := forLoop_invariant (setTheStageStep kf1 rev) P kf.addedNodes.length 0
    { deltaPos := [], deltaRot := [], heap := h } ⟨rfl, rfl, fun j hj => absurd hj (by omega)⟩
    (by
      intro i st _ hi hP
      obtain ⟨hl1, hl2, hP⟩ := hP
      have hi : i < kf.addedNodes.length := by omega
      obtain ⟨p, hp⟩ : ∃ p, kf.addedNodes[i]? = some p := ⟨_, List.getElem?_eq_getElem hi⟩
      obtain ⟨sp, hsp⟩ : ∃ p, kf.nStartPos[i]? = some p :=
        ⟨_, List.getElem?_eq_getElem (by omega)⟩
      obtain ⟨sr, hsr⟩ : ∃ p, kf.nStartRot[i]? = some p :=
        ⟨_, List.getElem?_eq_getElem (by omega)⟩
      obtain ⟨ep, hep⟩ : ∃ p, kf.nEndPos[i]? = some p :=
        ⟨_, List.getElem?_eq_getElem (by omega)⟩
      obtain ⟨er, her⟩ : ∃ p, kf.nEndRot[i]? = some p :=
        ⟨_, List.getElem?_eq_getElem (by omega)⟩
      have key : ∀ (t : StageLoop K),
          t.deltaPos = st.deltaPos ++
            [Vec3.divS (if rev then sp - ep else ep - sp) (kf.frameRate * d)] →
          t.deltaRot = st.deltaRot ++
            [Vec3.divS (if rev then sr - er else er - sr) (kf.frameRate * d)] →
          t.heap = Heap.set st.heap p
            { st.heap p with position := (if rev then ep else sp),
                             rotation := (if rev then er else sr) } →
          P (i + 1) t := by
        intro t e1 e2 e3
        refine ⟨by simp [e1, hl1], by simp [e2, hl2], ?_⟩
        intro j hj node sp' sr' ep' er' hn' hsp' hsr' hep' her'
        rcases Nat.lt_succ_iff_lt_or_eq.1 hj with hlt | heq
        · obtain ⟨q1, q2, q3, q4⟩ := hP j hlt node sp' sr' ep' er' hn' hsp' hsr' hep' her'
          have hne : node ≠ p := by
            intro hEq
            subst hEq
            have := nodup_getElem?_inj hnd hn' hp
            omega
          refine ⟨?_, ?_, ?_, ?_⟩
          · rw [e1, getElem?_snoc_lt _ _ (by omega)]
            exact q1
          · rw [e2, getElem?_snoc_lt _ _ (by omega)]
            exact q2
          · rw [e3]
            simpa [Heap.set, hne] using q3
          · rw [e3]
            simpa [Heap.set, hne] using q4
        · subst heq
          have a1 : node = p := Option.some.inj (hn'.symm.trans hp)
          have a2 : sp' = sp := Option.some.inj (hsp'.symm.trans hsp)
          have a3 : sr' = sr := Option.some.inj (hsr'.symm.trans hsr)
          have a4 : ep' = ep := Option.some.inj (hep'.symm.trans hep)
          have a5 : er' = er := Option.some.inj (her'.symm.trans her)
          subst a1 a2 a3 a4 a5
          refine ⟨?_, ?_, ?_, ?_⟩
          · rw [e1, ← hl1]
            exact getElem?_snoc_length _ _
          · rw [e2, ← hl2]
            exact getElem?_snoc_length _ _
          · rw [e3]
            simp [Heap.set]
          · rw [e3]
            simp [Heap.set]
      cases rev with
      | false =>
        refine ⟨{ deltaPos := st.deltaPos ++ [Vec3.divS (ep - sp) (kf.frameRate * d)]
                  deltaRot := st.deltaRot ++ [Vec3.divS (er - sr) (kf.frameRate * d)]
                  heap := Heap.set st.heap p { st.heap p with position := sp, rotation := sr } },
          ?_, key _ (by simp) (by simp) (by simp)⟩
        simp [setTheStageStep, kf1, hp, hsp, hsr, hep, her]
      | true =>
        refine ⟨{ deltaPos := st.deltaPos ++ [Vec3.divS (sp - ep) (kf.frameRate * d)]
                  deltaRot := st.deltaRot ++ [Vec3.divS (sr - er) (kf.frameRate * d)]
                  heap := Heap.set st.heap p { st.heap p with position := ep, rotation := er } },
          ?_, key _ (by simp) (by simp) (by simp)⟩
        simp [setTheStageStep, kf1, hp, hsp, hsr, hep, her])
  obtain ⟨st, hst, hl1, hl2, hP⟩ := hloop
  refine ⟨st.deltaPos, st.deltaRot, st.heap, ?_, by simpa using hl1, by simpa using hl2, ?_⟩
  · simp only [Keyframe.setTheStage]
    rw [show (forLoop (setTheStageStep kf1 rev) kf.addedNodes.length 0
        { deltaPos := [], deltaRot := [], heap := h }) = some st from hst]
    rfl
  · intro j node sp sr ep er hn hsp hsr hep her
    have hj : j < kf.addedNodes.length := (List.getElem?_eq_some.1 hn).1
    exact hP j (by simpa using hj) node sp sr ep er hn hsp hsr hep her

theorem playback_spec (F : FloatOps K) (kf : Keyframe K) (h : Heap K)
    (hnd : kf.addedNodes.Nodup) (hl1 : kf.deltaPos.length = kf.addedNodes.length)
    (hl2 : kf.deltaRot.length = kf.addedNodes.length) :
    ∃ h1,
      kf.playback F h
        = some (decide (kf.frameNumber + 1 < kf.frameRate * kf.duration * 2),
                { kf with frameNumber := kf.frameNumber + 1 }, h1)
      ∧ ∀ (j : Nat) node dp dr, kf.addedNodes[j]? = some node → kf.deltaPos[j]? = some dp →
          kf.deltaRot[j]? = some dr →
          (h1 node).position = (h node).position + Vec3.scale (Vec3.divS (-dp) 2)
              (F.cos (F.pi * kf.frameNumber / (kf.frameRate * kf.duration)) - 1)
          ∧ (h1 node).rotation = (h node).rotation + Vec3.scale (Vec3.divS (-dr) 2)
              (F.cos (F.pi * kf.frameNumber / (kf.frameRate * kf.duration)) - 1) := by
  let c : K := F.cos (F.pi * kf.frameNumber / (kf.frameRate * kf.duration)) - 1
  let P : Nat → Heap K → Prop := fun i g =>
    (∀ j, j < i → ∀ node dp dr, kf.addedNodes[j]? = some node → kf.deltaPos[j]? = some dp →
      kf.deltaRot[j]? = some dr →
      (g node).position = (h node).position + Vec3.scale (Vec3.divS (-dp) 2) c
      ∧ (g node).rotation = (h node).rotation + Vec3.scale (Vec3.divS (-dr) 2) c)
    ∧ (∀ j, i ≤ j → ∀ node, kf.addedNodes[j]? = some node → g node = h node)
  have hloop := forLoop_invariant (playbackStep kf c) P kf.addedNodes.length 0 h
    ⟨fun j hj => absurd hj (by omega), fun _ _ _ _ => rfl⟩
    (by
      intro i g _ hi hP
      obtain ⟨hP1, hP2⟩ := hP
      have hi : i < kf.addedNodes.length := by omega
      obtain ⟨p, hp⟩ : ∃ p, kf.addedNodes[i]? = some p := ⟨_, List.getElem?_eq_getElem hi⟩
      obtain ⟨dp, hdp⟩ : ∃ p, kf.deltaPos[i]? = some p :=
        ⟨_, List.getElem?_eq_getElem (by omega)⟩
      obtain ⟨dr, hdr⟩ : ∃ p, kf.deltaRot[i]? = some p :=
        ⟨_, List.getElem?_eq_getElem (by omega)⟩
      have hgp : g p = h p := hP2 i (le_refl _) p hp
      refine ⟨_, by simp only [playbackStep, hp, hdp, hdr]; rfl, ?_, ?_⟩
      · intro j hj node dp' dr' hn' hdp' hdr'
        rcases Nat.lt_succ_iff_lt_or_eq.1 hj with hlt | heq
        · have hne : node ≠ p := by
            intro hEq
            subst hEq
            have := nodup_getElem?_inj hnd hn' hp
            omega
          simpa [Heap.set, hne] using hP1 j hlt node dp' dr' hn' hdp' hdr'
        · subst heq
          have a1 : node = p := Option.some.inj (hn'.symm.trans hp)
          have a2 : dp' = dp := Option.some.inj (hdp'.symm.trans hdp)
          have a3 : dr' = dr := Option.some.inj (hdr'.symm.trans hdr)
          subst a1 a2 a3
          simp [Heap.set, hgp, c]
      · intro j hj node hn'
        have hne : node ≠ p := by
          intro hEq
          subst hEq
          have := nodup_getElem?_inj hnd hn' hp
          omega
        have := hP2 j (by omega) node hn'
        simpa [Heap.set, hne] using this)
  obtain ⟨h1, hh1, hP1, _⟩ := hloop
  refine ⟨h1, ?_, ?_⟩
  · simp only [Keyframe.playback]
    rw [show forLoop (playbackStep kf c) kf.addedNodes.length 0 h = some h1 from hh1]
    rfl
  · intro j node dp dr hn hdp hdr
    have hj : j < kf.addedNodes.length := (List.getElem?_eq_some.1 hn).1
    exact hP1 j (by simpa using hj) node dp dr hn hdp hdr

theorem Vec3.add_scale_add (p v : Vec3 K) (a b : K) :
    p + Vec3.scale v a + Vec3.scale v b = p + Vec3.scale v (a + b) := by
  simp only [Vec3.add_def, Vec3.scale, Vec3.mk.injEq]
  refine ⟨?_, ?_, ?_⟩ <;> ring

theorem Vec3.add_scale_zero (p v : Vec3 K) : p + Vec3.scale v 0 = p := by
  cases p
  simp [Vec3.scale, Vec3.add_def]

theorem playbackTimes_spec (F : FloatOps K) (kf : Keyframe K) (h : Heap K)
    (hnd : kf.addedNodes.Nodup) (hl1 : kf.deltaPos.length = kf.addedNodes.length)
    (hl2 : kf.deltaRot.length = kf.addedNodes.length) (h0 : kf.frameNumber = 0) :
    ∀ k : Nat, ∃ hk,
      playbackTimes F k (kf, h) = some ({ kf with frameNumber := (k : K) }, hk)
      ∧ ∀ (j : Nat) node dp dr, kf.addedNodes[j]? = some node → kf.deltaPos[j]? = some dp →
          kf.deltaRot[j]? = some dr →
          (hk node).position = (h node).position + Vec3.scale (Vec3.divS (-dp) 2)
            (∑ f in Finset.range k, (F.cos (F.pi * (f : K) / (kf.frameRate * kf.duration)) - 1))
          ∧ (hk node).rotation = (h node).rotation + Vec3.scale (Vec3.divS (-dr) 2)
            (∑ f in Finset.range k, (F.cos (F.pi * (f : K) / (kf.frameRate * kf.duration)) - 1)) := by
  intro k
  induction k with
  | zero =>
    refine ⟨h, ?_, ?_⟩
    · cases kf
      simp only [playbackTimes] at *
      simp [h0]
    · intro j node dp dr _ _ _
      simp [Vec3.add_scale_zero]
  | succ k ih =>
    obtain ⟨hk, e1, e2⟩ := ih
    obtain ⟨h1, p1, p2⟩ := playback_spec F { kf with frameNumber := (k : K) } hk hnd hl1 hl2
    refine ⟨h1, ?_, ?_⟩
    · simp only [playbackTimes, e1, Option.some_bind, p1, Option.map_some']
      simp
    · intro j node dp dr hn hdp hdr
      obtain ⟨q1, q2⟩ := p2 j node dp dr hn hdp hdr
      obtain ⟨r1, r2⟩ := e2 j node dp dr hn hdp hdr
      rw [q1, q2, r1, r2, Finset.sum_range_succ]
      exact ⟨Vec3.add_scale_add _ _ _ _, Vec3.add_scale_add _ _ _ _⟩

theorem sum_cos_full_period (n : Nat) (hn : 0 < n) :
    ∑ f in Finset.range (2 * n), (Real.cos (Real.pi * (f : ℝ) / (n : ℝ)) - 1) = -(2 * (n : ℝ)) := by
  have hn0 : (n : ℝ) ≠ 0 := by exact_mod_cast hn.ne'
  have hcos : ∑ f in Finset.range (2 * n), Real.cos (Real.pi * (f : ℝ) / (n : ℝ)) = 0 := by
    rw [two_mul, Finset.sum_range_add]
    have : ∀ x : Nat, Real.cos (Real.pi * ((n + x : Nat) : ℝ) / (n : ℝ))
        = -Real.cos (Real.pi * (x : ℝ) / (n : ℝ)) := by
      intro x
      rw [← Real.cos_add_pi]
      congr 1
      push_cast
      field_simp
      ring
    simp only [this, Finset.sum_neg_distrib]
    ring
  rw [Finset.sum_sub_distrib, hcos]
  simp

theorem round_trip_pose (a b : Vec3 ℝ) (n : ℝ) (hn : n ≠ 0) :
    a + Vec3.scale (Vec3.divS (-(Vec3.divS (b - a) n)) 2) (-(2 * n)) = b := by
  cases a
  cases b
  simp only [Vec3.add_def, Vec3.sub_def, Vec3.neg_def, Vec3.scale, Vec3.divS, Vec3.mk.injEq]
  refine ⟨?_, ?_, ?_⟩ <;> field_simp <;> ring

/-- C3: in exact real arithmetic, for a well-formed keyframe table, a tracked node
with recorded start pose `(sp, sr)` and end pose `(ep, er)`, and a half-duration
`d` with `frameRate * d = n` a positive integer: `setTheStage rev d` returns, the
calls `1 .. 2n - 1` of `playback` return `true`, call `2n` returns `false`, and
after it the node's position and rotation are the end pose when `rev` is false
and the start pose when `rev` is true. -/
theorem keyframe_round_trip (kf : Keyframe ℝ) (h : Heap ℝ) (rev : Bool) (d : ℝ) (n : Nat)
    (hwf : kf.WF) (hn : 0 < n) (hd : kf.frameRate * d = (n : ℝ))
    (i : Nat) (node : Ptr) (sp sr ep er : Vec3 ℝ)
    (hnode : kf.addedNodes[i]? = some node) (hsp : kf.nStartPos[i]? = some sp)
    (hsr : kf.nStartRot[i]? = some sr) (hep : kf.nEndPos[i]? = some ep)
    (her : kf.nEndRot[i]? = some er) :
    ∃ st0, kf.setTheStage h rev d = some st0 ∧
      (∀ k, k + 1 < 2 * n → ∃ st st',
        playbackTimes (⟨Real.cos, Real.sin, Real.sqrt, Real.pi⟩ : FloatOps ℝ) k st0 = some st ∧
        Keyframe.playback (⟨Real.cos, Real.sin, Real.sqrt, Real.pi⟩ : FloatOps ℝ) st.1 st.2
          = some (true, st')) ∧
      (∃ st st',
        playbackTimes (⟨Real.cos, Real.sin, Real.sqrt, Real.pi⟩ : FloatOps ℝ) (2 * n - 1) st0
          = some st ∧
        Keyframe.playback (⟨Real.cos, Real.sin, Real.sqrt, Real.pi⟩ : FloatOps ℝ) st.1 st.2
          = some (false, st') ∧
        (st'.2 node).position = (if rev then sp else ep) ∧
        (st'.2 node).rotation = (if rev then sr else er)) := by
  obtain ⟨dP, dR, h0, e0, l1, l2, hspec⟩ := setTheStage_spec kf h rev d hwf
  obtain ⟨hdp, hdr, hpos, hrot⟩ := hspec i node sp sr ep er hnode hsp hsr hep her
  have hn0 : (n : ℝ) ≠ 0 := by exact_mod_cast hn.ne'
  have T := playbackTimes_spec (⟨Real.cos, Real.sin, Real.sqrt, Real.pi⟩ : FloatOps ℝ)
    { kf with duration := d, frameNumber := 0, deltaPos := dP, deltaRot := dR } h0 hwf.1 l1 l2 rfl
  refine ⟨_, e0, ?_, ?_⟩
  · intro k hk
    obtain ⟨hk1, ek, _⟩ := T k
    obtain ⟨h1, p1, _⟩ := playback_spec (⟨Real.cos, Real.sin, Real.sqrt, Real.pi⟩ : FloatOps ℝ)
      { kf with duration := d, frameNumber := (k : ℝ), deltaPos := dP, deltaRot := dR } hk1
      hwf.1 l1 l2
    have hlt : (k : ℝ) + 1 < kf.frameRate * d * 2 := by
      rw [hd]
      have : ((k + 1 : Nat) : ℝ) < ((2 * n : Nat) : ℝ) := by exact_mod_cast hk
      push_cast at this
      linarith
    simp only [hlt, decide_True] at p1
    exact ⟨_, _, ek, p1⟩
  · obtain ⟨hk1, ek, _⟩ := T (2 * n - 1)
    obtain ⟨h1, p1, _⟩ := playback_spec (⟨Real.cos, Real.sin, Real.sqrt, Real.pi⟩ : FloatOps ℝ)
      { kf with duration := d, frameNumber := ((2 * n - 1 : Nat) : ℝ), deltaPos := dP,
                deltaRot := dR } hk1 hwf.1 l1 l2
    obtain ⟨h2, e2, q2⟩ := T (2 * n - 1 + 1)
    have hcast : ((2 * n - 1 : Nat) : ℝ) + 1 = 2 * (n : ℝ) := by
      have : 2 * n - 1 + 1 = 2 * n := by omega
      have h' : ((2 * n - 1 + 1 : Nat) : ℝ) = ((2 * n : Nat) : ℝ) := by rw [this]
      push_cast at h'
      linarith
    have hnlt : ¬ (((2 * n - 1 : Nat) : ℝ) + 1 < kf.frameRate * d * 2) := by
      rw [hd, hcast]
      linarith
    have hh : h2 = h1 := by
      have e3 := e2
      simp only [playbackTimes, ek, Option.some_bind, p1, Option.map_some'] at e3
      have := (Prod.mk.inj (Option.some.inj e3)).2
      exact this.symm
    simp only [hnlt, decide_False] at p1
    refine ⟨_, (_, h1), ek, p1, ?_, ?_⟩
    · obtain ⟨r1, _⟩ := q2 i node _ _ hnode hdp hdr
      have hsum := sum_cos_full_period n hn
      have h2n : 2 * n - 1 + 1 = 2 * n := by omega
      rw [h2n] at r1
      simp only [hd] at r1
      rw [hsum, hpos] at r1
      show (h1 node).position = _
      rw [← hh, r1]
      cases rev with
      | false => simpa using round_trip_pose sp ep n hn0
      | true => simpa using round_trip_pose ep sp n hn0
    · obtain ⟨_, r2⟩ := q2 i node _ _ hnode hdp hdr
      have hsum := sum_cos_full_period n hn
      have h2n : 2 * n - 1 + 1 = 2 * n := by omega
      rw [h2n] at r2
      simp only [hd] at r2
      rw [hsum, hrot] at r2
      show (h1 node).rotation = _
      rw [← hh, r2]
      cases rev with
      | false => simpa using round_trip_pose sr er n hn0
      | true => simpa using round_trip_pose er sr n hn0

/-! ### Removing a joint -/

theorem forLoop_single {σ : Type} (body : Nat → σ → Option σ) (n start k : Nat) (s s' : σ)
    (hk1 : start ≤ k) (hk2 : k < start + n)
    (hother : ∀ i t, i ≠ k → start ≤ i → i < start + n → body i t = some t)
    (hat : body k s = some s') : forLoop body n start s = some s' := by
  obtain ⟨t, ht, hP⟩ := forLoop_invariant body
    (fun i t => (i ≤ k → t = s) ∧ (k < i → t = s')) n start s
    ⟨fun _ => rfl, fun hlt => absurd hlt (by omega)⟩
    (by
      intro i t hi1 hi2 hP
      by_cases hik : i = k
      · subst hik
        have : t = s := hP.1 (le_refl _)
        subst this
        exact ⟨s', hat, fun hle => absurd hle (by omega), fun _ => rfl⟩
      · refine ⟨t, hother i t hik hi1 hi2, ?_, ?_⟩
        · intro hle
          exact hP.1 (by omega)
        · intro hlt
          exact hP.2 (by omega))
  rw [ht, hP.2 hk2]

theorem removeJointVisit_other (sel : Ptr) (scene : List Ptr) (hnd : scene.Nodup) (k : Nat)
    (hk : scene[k]? = some sel) (i : Nat) (st : RemoveLoop K) (hik : i ≠ k)
    (hi : i < scene.length) : removeJointVisit sel scene i st = some st := by
  obtain ⟨x, hx⟩ : ∃ x, scene[i]? = some x := ⟨_, List.getElem?_eq_getElem hi⟩
  have hne : sel ≠ x := by
    intro hEq
    subst hEq
    exact hik (nodup_getElem?_inj hnd hx hk)
  simp [removeJointVisit, hx, hne]

/-- C5: in a scene with pairwise distinct entries that contains the chain
`a → b → c` (`a` a root whose only child is `b`, `c` the only child of `b`), with
`b` selected and stored at a scene index `k ≥ 1`, `removeJoint` returns; after it
`c` has parent `a`, the child list of `a` is `[c]`, `a` is still a root, `b` is no
longer in the scene, and `a`, `c` and the ground plane (index 0) are still in
it. -/
theorem removeJoint_chain (s : AppState K) (a b c g : Ptr) (k : Nat) (tl : List Ptr)
    (hsel : s.selected = b :: tl) (hnd : s.scene.Nodup) (hk : 1 ≤ k)
    (hb : s.scene[k]? = some b) (hg : s.scene[0]? = some g)
    (ha : a ∈ s.scene) (hc : c ∈ s.scene)
    (hap : (s.heap a).parent = none) (hac : (s.heap a).childList = [b])
    (hbp : (s.heap b).parent = some a) (hbc : (s.heap b).childList = [c])
    (hcp : (s.heap c).parent = some b) :
    ∃ s', removeJoint s = some s'
      ∧ (s'.heap c).parent = some a ∧ (s'.heap a).childList = [c]
      ∧ (s'.heap a).parent = none
      ∧ b ∉ s'.scene ∧ a ∈ s'.scene ∧ c ∈ s'.scene ∧ s'.scene[0]? = some g := by
  have hab : a ≠ b := by
    intro hEq
    rw [hEq, hbp] at hap
    cases hap
  have hac' : a ≠ c := by
    intro hEq
    rw [hEq, hcp] at hap
    cases hap
  have hbc' : b ≠ c := by
    intro hEq
    rw [← hEq, hbp] at hcp
    exact hab (Option.some.inj hcp)
  have hklt : k < s.scene.length := (List.getElem?_eq_some.1 hb).1
  let H : Heap K := Heap.set (addChild s.heap a c) a
    { addChild s.heap a c a with childList := [c] }
  have hvisit : removeJointVisit b s.scene k
      ({ heap := s.heap, eraseIndex := -1, re := -1 } : RemoveLoop K)
      = some { heap := H, eraseIndex := (k : Int), re := 1 } := by
    have e1 : (addChild s.heap a c a).childList = [b, c] := by
      simp [addChild, Heap.set, hac', hac]
    have e2 : (addChild s.heap a c b).childList = [c] := by
      simp [addChild, Heap.set, hab.symm, hbc', hbc]
    simp [removeJointVisit, hb, hbp, hab, hbc, e1, e2, H]
  have hloop : forLoop (removeJointVisit b s.scene) (s.scene.length - 1) 1
      ({ heap := s.heap, eraseIndex := -1, re := -1 } : RemoveLoop K)
      = some { heap := H, eraseIndex := (k : Int), re := 1 } :=
    forLoop_single _ _ 1 k _ _ hk (by omega)
      (fun i t hik _ hi => removeJointVisit_other b s.scene hnd k hb i t hik (by omega)) hvisit
  refine ⟨{ s with
      heap := H
      scene := s.scene.eraseIdx k
      selected := []
      animation := { s.animation with
        addedNodes := [], nStartPos := [], nEndPos := [], nStartRot := [], nEndRot := [] }
      models := []
      mods := [] }, ?_, ?_, ?_, ?_, ?_, ?_, ?_, ?_⟩
  · simp [removeJoint, hsel, hloop, hklt]
  · simp [H, addChild, Heap.set, hac'.symm]
  · simp [H, Heap.set]
  · simp [H, addChild, Heap.set, hac', hap]
  · intro hmem
    obtain ⟨i, hik, hi⟩ := List.mem_eraseIdx_iff_getElem?.1 hmem
    exact hik (nodup_getElem?_inj hnd hi hb)
  · obtain ⟨i, hi⟩ := List.mem_iff_getElem?.1 ha
    refine List.mem_eraseIdx_iff_getElem?.2 ⟨i, ?_, hi⟩
    intro hEq
    subst hEq
    exact hab (Option.some.inj (hi.symm.trans hb))
  · obtain ⟨i, hi⟩ := List.mem_iff_getElem?.1 hc
    refine List.mem_eraseIdx_iff_getElem?.2 ⟨i, ?_, hi⟩
    intro hEq
    subst hEq
    exact hbc' (Option.some.inj (hb.symm.trans hi))
  · show (s.scene.eraseIdx k)[0]? = some g
    rw [List.getElem?_eraseIdx_of_lt _ _ _ (by omega)]
    exact hg

/-- C4: on `exampleSiblings` the selected joint (address 2) is the first of the
two children of the root (address 1). `removeJoint` erases it from the scene but
erases the other child (address 3) from the root's child list: afterwards the
root still lists the removed joint, and the surviving joint at address 3 has the
root as parent without being listed as its child. -/
theorem removeJoint_first_sibling :
    (removeJoint (exampleSiblings : AppState ℚ)).map
        (fun s => (s.scene, (s.heap 1).childList, (s.heap 3).parent))
      = some ([0, 1, 3], [2], some 1) := by
  decide

/-- Witness of C5 on `exampleChainScene`. -/
theorem removeJoint_chain_witness :
    ∃ s', removeJoint (exampleChainScene : AppState ℚ) = some s'
      ∧ (s'.heap 3).parent = some 1 ∧ (s'.heap 1).childList = [3]
      ∧ (s'.heap 1).parent = none
      ∧ 2 ∉ s'.scene ∧ 1 ∈ s'.scene ∧ 3 ∈ s'.scene ∧ s'.scene[0]? = some 0 :=
  removeJoint_chain (exampleChainScene : AppState ℚ) 1 2 3 0 2 [] rfl (by decide) (by decide)
    rfl rfl (by decide) (by decide) rfl rfl rfl rfl rfl

/-- Witness of C3 on `exampleKeyframe`, played forward with half-duration `1/2`
at 60 frames per second (`n = 30`). -/
theorem keyframe_round_trip_witness :
    ∃ st0, (exampleKeyframe : Keyframe ℝ).setTheStage exampleMovedRoot false (1 / 2) = some st0 ∧
      (∀ k, k + 1 < 2 * 30 → ∃ st st',
        playbackTimes (⟨Real.cos, Real.sin, Real.sqrt, Real.pi⟩ : FloatOps ℝ) k st0 = some st ∧
        Keyframe.playback (⟨Real.cos, Real.sin, Real.sqrt, Real.pi⟩ : FloatOps ℝ) st.1 st.2
          = some (true, st')) ∧
      (∃ st st',
        playbackTimes (⟨Real.cos, Real.sin, Real.sqrt, Real.pi⟩ : FloatOps ℝ) (2 * 30 - 1) st0
          = some st ∧
        Keyframe.playback (⟨Real.cos, Real.sin, Real.sqrt, Real.pi⟩ : FloatOps ℝ) st.1 st.2
          = some (false, st') ∧
        (st'.2 0).position = ⟨1, 2, 3⟩ ∧ (st'.2 0).rotation = ⟨0, 90, 0⟩) :=
  keyframe_round_trip (exampleKeyframe : Keyframe ℝ) exampleMovedRoot false (1 / 2) 30
    ⟨by simp [exampleKeyframe], rfl, rfl, rfl, rfl⟩ (by norm_num)
    (by norm_num [exampleKeyframe, Keyframe.init]) 0 0 ⟨0, 0, 0⟩ ⟨0, 0, 0⟩ ⟨1, 2, 3⟩ ⟨0, 90, 0⟩
    rfl rfl rfl rfl rfl

/-! ### Recording keyframes -/

theorem getIndexLoop_not_mem (obj : Ptr) :
    ∀ (l : List Ptr) (i : Nat) (index : Int), obj ∉ l → getIndexLoop obj l i index = index := by
  intro l
  induction l with
  | nil => intro i index _; rfl
  | cons a rest ih =>
    intro i index hmem
    have h1 : obj ≠ a := fun hEq => hmem (by simp [hEq])
    have h2 : obj ∉ rest := fun hIn => hmem (by simp [hIn])
    simp [getIndexLoop, h1, ih _ _ h2]

theorem getIndexLoop_nodup (obj : Ptr) :
    ∀ (l : List Ptr) (i : Nat) (index : Int) (k : Nat), l.Nodup → l[k]? = some obj →
      getIndexLoop obj l i index = ((i + k : Nat) : Int) := by
  intro l
  induction l with
  | nil => intro i index k _ hk; simp at hk
  | cons a rest ih =>
    intro i index k hnd hk
    have hnd2 := List.nodup_cons.1 hnd
    cases k with
    | zero =>
      have ha : a = obj := by simpa using hk
      subst ha
      simp [getIndexLoop, getIndexLoop_not_mem a rest _ _ hnd2.1]
    | succ k =>
      have hk2 : rest[k]? = some obj := by simpa using hk
      rw [getIndexLoop, ih (i + 1) _ k hnd2.2 hk2]
      congr 1
      omega

theorem getIndex_untracked (kf : Keyframe K) (obj : Ptr) (hobj : obj ∉ kf.addedNodes) :
    kf.getIndex obj = -1 := getIndexLoop_not_mem obj _ _ _ hobj

theorem getIndex_tracked (kf : Keyframe K) (obj : Ptr) (i : Nat) (hnd : kf.addedNodes.Nodup)
    (hi : kf.addedNodes[i]? = some obj) : kf.getIndex obj = (i : Int) := by
  have := getIndexLoop_nodup obj kf.addedNodes 0 (-1) i hnd hi
  simpa [Keyframe.getIndex] using this

/-- C10: for a keyframe table that satisfies the class invariant and any node
`obj`: when `obj` is not tracked, `setStartValues` and `setEndValues` both append
it with start and end position/rotation equal to its current position/rotation;
when `obj` is tracked at index `i`, `setStartValues` overwrites entry `i` of
`nStartPos` and `nStartRot` only, and `setEndValues` overwrites entry `i` of
`nEndPos` and `nEndRot` only. -/
theorem setValues_effect (kf : Keyframe K) (h : Heap K) (obj : Ptr) (hwf : kf.WF) :
    (obj ∉ kf.addedNodes →
      kf.setStartValues h obj = some { kf with
        addedNodes := kf.addedNodes ++ [obj]
        nStartPos := kf.nStartPos ++ [(h obj).position]
        nStartRot := kf.nStartRot ++ [(h obj).rotation]
        nEndPos := kf.nEndPos ++ [(h obj).position]
        nEndRot := kf.nEndRot ++ [(h obj).rotation] }
      ∧ kf.setEndValues h obj = some { kf with
        addedNodes := kf.addedNodes ++ [obj]
        nStartPos := kf.nStartPos ++ [(h obj).position]
        nStartRot := kf.nStartRot ++ [(h obj).rotation]
        nEndPos := kf.nEndPos ++ [(h obj).position]
        nEndRot := kf.nEndRot ++ [(h obj).rotation] })
    ∧ (∀ i : Nat, kf.addedNodes[i]? = some obj →
      kf.setStartValues h obj = some { kf with
        nStartPos := kf.nStartPos.set i (h obj).position
        nStartRot := kf.nStartRot.set i (h obj).rotation }
      ∧ kf.setEndValues h obj = some { kf with
        nEndPos := kf.nEndPos.set i (h obj).position
        nEndRot := kf.nEndRot.set i (h obj).rotation }) := by
  obtain ⟨hnd, h1, h2, h3, h4⟩ := hwf
  constructor
  · intro hobj
    have hidx := getIndex_untracked kf obj hobj
    simp [Keyframe.setStartValues, Keyframe.setEndValues, hidx]
  · intro i hi
    have hidx := getIndex_tracked kf obj i hnd hi
    have hlt : i < kf.addedNodes.length := (List.getElem?_eq_some.1 hi).1
    have hne : ((i : Int) = -1) = False := by
      simp only [eq_iff_iff, iff_false]
      omega
    simp only [Keyframe.setStartValues, Keyframe.setEndValues, hidx, hne, if_false,
      Int.toNat_ofNat, h1, h2, h3, h4, hlt, and_self, if_true]

/-- Witness of C10 on `exampleKeyframe`, which tracks the node at address 0:
recording the start pose again overwrites the start entries only, recording the
end pose overwrites the end entries only. -/
theorem setValues_effect_witness :
    (exampleKeyframe : Keyframe ℚ).setStartValues exampleMovedRoot 0 = some
        { (exampleKeyframe : Keyframe ℚ) with
          nStartPos := (exampleKeyframe : Keyframe ℚ).nStartPos.set 0
            ((exampleMovedRoot : Heap ℚ) 0).position
          nStartRot := (exampleKeyframe : Keyframe ℚ).nStartRot.set 0
            ((exampleMovedRoot : Heap ℚ) 0).rotation }
      ∧ (exampleKeyframe : Keyframe ℚ).setEndValues exampleMovedRoot 0 = some
        { (exampleKeyframe : Keyframe ℚ) with
          nEndPos := (exampleKeyframe : Keyframe ℚ).nEndPos.set 0
            ((exampleMovedRoot : Heap ℚ) 0).position
          nEndRot := (exampleKeyframe : Keyframe ℚ).nEndRot.set 0
            ((exampleMovedRoot : Heap ℚ) 0).rotation } :=
  (setValues_effect (exampleKeyframe : Keyframe ℚ) exampleMovedRoot 0
    ⟨by simp [exampleKeyframe], rfl, rfl, rfl, rfl⟩).2 0 rfl

/-! ### Saving -/

theorem truncToInt_neg (x : ℚ) (z : Int) (hx : x < 0) (h1 : (z : ℚ) - 1 < x) (h2 : x ≤ (z : ℚ)) :
    truncToInt x = z := by
  have : ¬ (0 ≤ x) := not_le.2 hx
  simp only [truncToInt, this, if_false]
  exact Int.ceil_eq_iff.2 ⟨h1, h2⟩

theorem truncToInt_nonneg (x : ℚ) (z : Int) (hx : 0 ≤ x) (h1 : (z : ℚ) ≤ x) (h2 : x < (z : ℚ) + 1) :
    truncToInt x = z := by
  simp only [truncToInt, hx, if_true]
  exact Int.floor_eq_iff.2 ⟨h1, h2⟩

/-- C8: `saveToFile` on `exampleNegativePose` writes the position component
`-1.014` as `-1` and the rotation component `-0.016` as `-0.01`, because the
conversion to `int` truncates towards zero; rounding half-up,
`floor (x * 100 + 0.5) / 100`, gives `-1.01` and `-0.02`. -/
theorem saveToFile_negative_component :
    (saveToFile (exampleNegativePose : AppState ℚ)).map
        (fun l => l.map fun j => (j.translate.x, j.rotate.y))
      = some [(-1, -1 / 100)]
    ∧ ((⌊(-1014 / 1000 : ℚ) * 100 + 1 / 2⌋ : Int) : ℚ) / 100 = -101 / 100
    ∧ ((⌊(-16 / 1000 : ℚ) * 100 + 1 / 2⌋ : Int) : ℚ) / 100 = -2 / 100 := by
  have t1 : truncToInt ((-1014 / 1000 : ℚ) * 100 + 1 / 2) = -100 :=
    truncToInt_neg _ _ (by norm_num) (by norm_num) (by norm_num)
  have t2 : truncToInt ((-16 / 1000 : ℚ) * 100 + 1 / 2) = -1 :=
    truncToInt_neg _ _ (by norm_num) (by norm_num) (by norm_num)
  have f1 : ⌊(-1014 / 1000 : ℚ) * 100 + 1 / 2⌋ = -101 :=
    Int.floor_eq_iff.2 ⟨by norm_num, by norm_num⟩
  have f2 : ⌊(-16 / 1000 : ℚ) * 100 + 1 / 2⌋ = -2 :=
    Int.floor_eq_iff.2 ⟨by norm_num, by norm_num⟩
  refine ⟨?_, ?_, ?_⟩
  · have hp : ((exampleNegativePose : AppState ℚ).heap 1).position = ⟨-1014 / 1000, 0, 0⟩ := rfl
    have hr : ((exampleNegativePose : AppState ℚ).heap 1).rotation = ⟨0, -16 / 1000, 0⟩ := rfl
    have hs : (exampleNegativePose : AppState ℚ).scene = [0, 1] := rfl
    have hpar : ((exampleNegativePose : AppState ℚ).heap 1).parent = none := rfl
    simp only [saveToFile, hs, List.drop_one, List.tail_cons, List.any_cons, hpar, decide_True,
      Bool.true_or, if_true, Option.map_some', List.map_cons, List.map_nil, formatVec, hp, hr,
      formatComponent, t1, t2]
    norm_num
  · rw [f1]
    norm_num
  · rw [f2]
    norm_num

/-! ### Loading -/

theorem getMatrix_root (F : FloatOps K) (h : Heap K) (fuel : Nat) (p : Ptr)
    (hp : (h p).parent = none) :
    getMatrix F h (fuel + 1) p = some (getLocalMatrix F (h p)) := by
  simp [getMatrix, hp]

theorem getMatrix_child_of_root (F : FloatOps K) (h : Heap K) (fuel : Nat) (p q : Ptr)
    (hp : (h p).parent = some q) (hq : (h q).parent = none) :
    getMatrix F h (fuel + 2) p
      = some (getLocalMatrix F (h q) * getLocalMatrix F (h p)) := by
  simp [getMatrix, hp, hq]

theorem getLocalMatrix_turned (o : SceneObject ℝ) (hr : o.rotation = ⟨0, 180, 0⟩)
    (hsc : o.scale = Vec3.one) (hp : o.pivot = Vec3.zero) :
    getLocalMatrix (⟨Real.cos, Real.sin, Real.sqrt, Real.pi⟩ : FloatOps ℝ) o
      = translate o.position * !![-1, 0, 0, 0; 0, 1, 0, 0; 0, 0, -1, 0; 0, 0, 0, 1] := by
  have e1 : getRotateMatrix (⟨Real.cos, Real.sin, Real.sqrt, Real.pi⟩ : FloatOps ℝ) o
      = !![-1, 0, 0, 0; 0, 1, 0, 0; 0, 0, -1, 0; 0, 0, 0, 1] := by
    have hpi : (180 : ℝ) * (Real.pi / 180) = Real.pi := by ring
    simp [getRotateMatrix, hr, radians, eulerAngleYXZ, hpi]
  have e2 : getScaleMatrix o = 1 := by
    have : (⟨o.scale.x, o.scale.y, o.scale.z⟩ : Vec3 ℝ) = Vec3.one := by rw [← hsc]
    simp [getScaleMatrix, this, scaleMat_one]
  have e3 : translate (⟨-o.pivot.x, -o.pivot.y, -o.pivot.z⟩ : Vec3 ℝ) = 1 := by
    rw [hp]
    simpa [Vec3.zero] using (translate_zero : translate (Vec3.zero : Vec3 ℝ) = 1)
  have e4 : translate (⟨o.pivot.x, o.pivot.y, o.pivot.z⟩ : Vec3 ℝ) = 1 := by
    rw [hp]
    simpa [Vec3.zero] using (translate_zero : translate (Vec3.zero : Vec3 ℝ) = 1)
  simp only [getLocalMatrix, e1, e2, e3, e4, mul_one, getTranslateMatrix]

/-- C6: on `exampleRotatedParent` the selected joint sits at the origin and is
rotated by 180 degrees about y. `createJoint` with the pick point `(1, 0, 0)`
makes the new joint (address 2) a child of the selection, but its world position
is `(-1, 0, 0)`, not the pick point. -/
theorem createJoint_rotated_parent :
    (createJoint (⟨Real.cos, Real.sin, Real.sqrt, Real.pi⟩ : FloatOps ℝ) 2 ⟨1, 0, 0⟩
        exampleRotatedParent).bind
      (fun s => (getPosition (⟨Real.cos, Real.sin, Real.sqrt, Real.pi⟩ : FloatOps ℝ)
        s.heap 2 2).map fun w => (w, (s.heap 2).parent, (s.heap 1).childList, s.scene))
      = some (⟨-1, 0, 0⟩, some 1, [2], [0, 1, 2]) := by
  have hsel : (exampleRotatedParent : AppState ℝ).selected = [1] := rfl
  have hnext : (exampleRotatedParent : AppState ℝ).next = 2 := rfl
  have g1 : ∀ h : Heap ℝ, (h 1).parent = none → (h 1).position = Vec3.zero →
      (h 1).rotation = ⟨0, 180, 0⟩ → (h 1).scale = Vec3.one → (h 1).pivot = Vec3.zero →
      getMatrix (⟨Real.cos, Real.sin, Real.sqrt, Real.pi⟩ : FloatOps ℝ) h 2 1
        = some !![-1, 0, 0, 0; 0, 1, 0, 0; 0, 0, -1, 0; 0, 0, 0, 1] := by
    intro h a1 a2 a3 a4 a5
    rw [getMatrix_root _ h 1 1 a1, getLocalMatrix_turned _ a3 a4 a5, a2, translate_zero, one_mul]
  have g2 : ∀ h : Heap ℝ, (h 2).parent = none → (h 2).rotation = Vec3.zero →
      (h 2).scale = Vec3.one → (h 2).pivot = Vec3.zero →
      getMatrix (⟨Real.cos, Real.sin, Real.sqrt, Real.pi⟩ : FloatOps ℝ) h 2 2
        = some (translate (h 2).position) := by
    intro h a1 a3 a4 a5
    rw [getMatrix_root _ h 1 2 a1,
      getLocalMatrix_unrotated _ Real.cos_zero Real.sin_zero _ a3 a4 a5]
  have g3 : ∀ h : Heap ℝ, (h 2).parent = some 1 → (h 2).rotation = Vec3.zero →
      (h 2).scale = Vec3.one → (h 2).pivot = Vec3.zero →
      (h 1).parent = none → (h 1).position = Vec3.zero →
      (h 1).rotation = ⟨0, 180, 0⟩ → (h 1).scale = Vec3.one → (h 1).pivot = Vec3.zero →
      getMatrix (⟨Real.cos, Real.sin, Real.sqrt, Real.pi⟩ : FloatOps ℝ) h 2 2
        = some (!![-1, 0, 0, 0; 0, 1, 0, 0; 0, 0, -1, 0; 0, 0, 0, 1] * translate (h 2).position) := by
    intro h a1 a3 a4 a5 b1 b2 b3 b4 b5
    rw [getMatrix_child_of_root _ h 0 2 1 a1 b1, getLocalMatrix_turned _ b3 b4 b5, b2,
      translate_zero, one_mul, getLocalMatrix_unrotated _ Real.cos_zero Real.sin_zero _ a3 a4 a5]
  simp only [createJoint, hsel, hnext, getPosition, setPosition]
  rw [g1 _ rfl rfl rfl rfl rfl]
  simp only [Option.map_some', Option.some_bind]
  rw [g2 _ rfl rfl rfl rfl]
  simp only [Option.map_some', Option.some_bind]
  rw [g3 _ rfl rfl rfl rfl rfl rfl rfl rfl rfl]
  simp only [inverse_translate, transformPoint_translate]
  simp [transformPoint, translate, Matrix.mulVec, Matrix.dotProduct,
    Fin.sum_univ_four, Matrix.mul_apply, Heap.set, addChild, Vec3.zero, Vec3.sub_def,
    Vec3.neg_def, Vec3.add_def, Matrix.vecHead, Matrix.vecTail, exampleRotatedParent, newJoint,
    AppState.setup]

/-! ### Picking -/

/-- C7: on `examplePickScene`, with the camera at the origin and the pick ray
hitting the joints at addresses 2 and 3, `mousePressed` selects the joint at
address 3, whose world position `(101, 0, 0)` is farther from the camera than
the world position `(5, 0, 0)` of the other hit: the loop compares the local
`position` fields, `(1, 0, 0)` against `(5, 0, 0)`. -/
theorem mousePressed_picks_by_local_position :
    (mousePressed (⟨Real.cos, Real.sin, Real.sqrt, Real.pi⟩ : FloatOps ℝ) false
        (fun p => decide (p = 2) || decide (p = 3)) ⟨0, 0, 0⟩ examplePickScene).selected = [3]
    ∧ getPosition (⟨Real.cos, Real.sin, Real.sqrt, Real.pi⟩ : FloatOps ℝ)
        (examplePickScene : AppState ℝ).heap 2 2 = some ⟨5, 0, 0⟩
    ∧ getPosition (⟨Real.cos, Real.sin, Real.sqrt, Real.pi⟩ : FloatOps ℝ)
        (examplePickScene : AppState ℝ).heap 2 3 = some ⟨101, 0, 0⟩
    ∧ Vec3.length (⟨Real.cos, Real.sin, Real.sqrt, Real.pi⟩ : FloatOps ℝ)
          ((⟨5, 0, 0⟩ : Vec3 ℝ) - ⟨0, 0, 0⟩)
        < Vec3.length (⟨Real.cos, Real.sin, Real.sqrt, Real.pi⟩ : FloatOps ℝ)
          ((⟨101, 0, 0⟩ : Vec3 ℝ) - ⟨0, 0, 0⟩) := by
  have s25 : Real.sqrt 25 = 5 := by
    rw [show (25 : ℝ) = 5 ^ 2 by norm_num]
    exact Real.sqrt_sq (by norm_num)
  have s101 : Real.sqrt 10201 = 101 := by
    rw [show (10201 : ℝ) = 101 ^ 2 by norm_num]
    exact Real.sqrt_sq (by norm_num)
  have hits : (examplePickScene : AppState ℝ).scene.filter
      (fun p => ((examplePickScene : AppState ℝ).heap p).isSelectable
        && (decide (p = 2) || decide (p = 3))) = [2, 3] := by decide
  have p2 : ((examplePickScene : AppState ℝ).heap 2).position = ⟨5, 0, 0⟩ := rfl
  have p3 : ((examplePickScene : AppState ℝ).heap 3).position = ⟨1, 0, 0⟩ := rfl
  refine ⟨?_, ?_, ?_, ?_⟩
  · simp only [mousePressed, hits, pickNearest, p2, p3, Vec3.length, Vec3.dot, Vec3.sub_def]
    norm_num [s25]
  · rw [getPosition, getMatrix_root _ _ 1 2 rfl,
      getLocalMatrix_unrotated _ Real.cos_zero Real.sin_zero _ rfl rfl rfl, p2]
    simp [transformPoint_translate, Vec3.zero, Vec3.add_def]
  · rw [getPosition, getMatrix_child_of_root _ _ 0 3 1 rfl rfl,
      getLocalMatrix_unrotated _ Real.cos_zero Real.sin_zero _ rfl rfl rfl,
      getLocalMatrix_unrotated _ Real.cos_zero Real.sin_zero _ rfl rfl rfl,
      translate_mul_translate, p3]
    have p1 : ((examplePickScene : AppState ℝ).heap 1).position = ⟨100, 0, 0⟩ := rfl
    rw [p1]
    simp only [Option.map_some', transformPoint_translate, Vec3.zero, Vec3.add_def]
    norm_num
  · simp only [Vec3.length, Vec3.dot, Vec3.sub_def]
    norm_num [s25, s101]

/-! ### The ground plane -/

/-- C11: whenever the infinite-plane test, called with the ray's origin and
direction and the plane's position and normal, succeeds with distance `dist`,
the hit point is `h = p + dist * d` (the value of `Ray::evalPoint`), and
`Plane::intersect` returns false when `h.x` is outside
`[position.x - width/2, position.x + width/2]` or `h.z` is outside
`[position.z - height/2, position.z + height/2]`, and returns true with output
point `h` and output normal the plane's normal when `h` lies strictly inside the
rectangle; whenever the infinite-plane test fails it returns false. -/
theorem planeIntersect_bounded
    (intersectRayPlane : Vec3 K → Vec3 K → Vec3 K → Vec3 K → Option K)
    (position normal : Vec3 K) (width height : K) (ray : Ray K)
    (point normalAtIntersect : Vec3 K) :
    (∀ dist h, intersectRayPlane ray.p ray.d position normal = some dist →
      h = (⟨ray.p.x + dist * ray.d.x, ray.p.y + dist * ray.d.y, ray.p.z + dist * ray.d.z⟩
            : Vec3 K) →
      ray.evalPoint dist = h
      ∧ ((h.x < position.x - width / 2 ∨ position.x + width / 2 < h.x
          ∨ h.z < position.z - height / 2 ∨ position.z + height / 2 < h.z) →
        (planeIntersect intersectRayPlane position normal width height ray point
          normalAtIntersect).1 = false)
      ∧ ((position.x - width / 2 < h.x ∧ h.x < position.x + width / 2
          ∧ position.z - height / 2 < h.z ∧ h.z < position.z + height / 2) →
        planeIntersect intersectRayPlane position normal width height ray point
          normalAtIntersect = (true, h, normal)))
    ∧ (intersectRayPlane ray.p ray.d position normal = none →
        (planeIntersect intersectRayPlane position normal width height ray point
          normalAtIntersect).1 = false) := by
  refine ⟨fun dist h hd hh => ?_, ?_⟩
  · have he : ray.evalPoint dist = h := by
      rw [hh]
      simp [Ray.evalPoint, Vec3.smul, Vec3.add_def]
    refine ⟨he, ?_, ?_⟩
    · intro hout
      simp only [planeIntersect, hd, he, decide_eq_false_iff_not, not_and, not_lt, gt_iff_lt]
      intro h1 h2 h3
      rcases hout with h | h | h | h
      · exact absurd h2 (not_lt.2 h.le)
      · exact absurd h1 (not_lt.2 h.le)
      · exact h.le
      · exact absurd h3 (not_lt.2 h.le)
    · intro hin
      obtain ⟨h1, h2, h3, h4⟩ := hin
      simp [planeIntersect, hd, he, h1, h2, h3, h4]
  · intro hn
    simp [planeIntersect, hn]

/-- Evaluation of C11 on the ground plane of the application (position
`(0, -2, 0)`, normal `(0, 1, 0)`, 20 by 20) and the ray from `(0, 5, 0)` straight
down: the infinite-plane test succeeds at distance 7, and the call returns true
with the hit point `(0, -2, 0)` and the plane's normal. -/
theorem planeIntersect_bounded_witness :
    planeIntersect (glmIntersectRayPlane (1 / 8388608 : ℚ)) ⟨0, -2, 0⟩ ⟨0, 1, 0⟩ 20 20
        ⟨⟨0, 5, 0⟩, ⟨0, -1, 0⟩⟩ ⟨0, 0, 0⟩ ⟨0, 0, 0⟩
      = (true, ⟨0, -2, 0⟩, ⟨0, 1, 0⟩) :=
  ((planeIntersect_bounded (glmIntersectRayPlane (1 / 8388608 : ℚ)) ⟨0, -2, 0⟩ ⟨0, 1, 0⟩ 20 20
      ⟨⟨0, 5, 0⟩, ⟨0, -1, 0⟩⟩ ⟨0, 0, 0⟩ ⟨0, 0, 0⟩).1 7 ⟨0, -2, 0⟩
    (by norm_num [glmIntersectRayPlane, Vec3.dot, Vec3.sub_def])
    (by norm_num)).2.2
    (by norm_num)

/-! ### The local matrix -/

theorem Vec3.eta (v : Vec3 K) : (⟨v.x, v.y, v.z⟩ : Vec3 K) = v := by
  cases v
  rfl

theorem rotY_mul_rotX (ch sh cp sp : K) :
    rotY ch sh * rotX cp sp
      = !![ch, sh * sp, sh * cp, 0;
           0, cp, -sp, 0;
           -sh, ch * sp, ch * cp, 0;
           0, 0, 0, 1] := by
  ext i j
  fin_cases i <;> fin_cases j <;>
    simp [rotX, rotY, Matrix.mul_apply, Fin.sum_univ_four, Matrix.vecHead, Matrix.vecTail]

theorem eulerAngleYXZ_eq_rot (F : FloatOps K) (yaw pitch roll : K) :
    eulerAngleYXZ F yaw pitch roll
      = rotY (F.cos yaw) (F.sin yaw) * rotX (F.cos pitch) (F.sin pitch)
        * rotZ (F.cos roll) (F.sin roll) := by
  rw [rotY_mul_rotX]
  ext i j
  fin_cases i <;> fin_cases j <;>
    simp [eulerAngleYXZ, rotZ, Matrix.mul_apply, Fin.sum_univ_four, Matrix.vecHead,
      Matrix.vecTail] <;> ring

/-- C12: `getLocalMatrix` is Translate(position) x Translate(pivot) x
Rotate(rotation) x Translate(-pivot) x Scale(scale), where Rotate is the product
of the rotation about y by `rotation.y`, about x by `rotation.x` and about z by
`rotation.z` (degrees converted to radians); with pivot `0` it is
Translate x Rotate x Scale. -/
theorem getLocalMatrix_composition (F : FloatOps K) (o : SceneObject K) :
    getLocalMatrix F o
      = translate o.position * translate o.pivot * specRotate F o.rotation
        * translate (-o.pivot) * scaleMat o.scale
    ∧ (o.pivot = Vec3.zero →
        getLocalMatrix F o = translate o.position * specRotate F o.rotation * scaleMat o.scale) := by
  have e : getLocalMatrix F o
      = translate o.position * translate o.pivot * specRotate F o.rotation
        * translate (-o.pivot) * scaleMat o.scale := by
    simp only [getLocalMatrix, getTranslateMatrix, getRotateMatrix, getScaleMatrix, specRotate,
      eulerAngleYXZ_eq_rot, Vec3.neg_def, Vec3.eta]
  refine ⟨e, fun hp => ?_⟩
  have hneg : -(Vec3.zero : Vec3 K) = Vec3.zero := by simp [Vec3.zero, Vec3.neg_def]
  rw [e, hp, hneg, translate_zero, mul_one, mul_one]

/-! ### Removing a node that is not in the scene -/

theorem forLoop_id {σ : Type} (body : Nat → σ → Option σ) :
    ∀ (n start : Nat) (s : σ),
      (∀ i t, start ≤ i → i < start + n → body i t = some t) →
      forLoop body n start s = some s := by
  intro n
  induction n with
  | zero => intro start s _; rfl
  | succ n ih =>
    intro start s hb
    have h1 := hb start s (le_refl _) (by omega)
    have h2 := ih (start + 1) s (fun i t hi1 hi2 => hb i t (by omega) (by omega))
    simp [forLoop, h1, h2]

theorem forLoop_eq_at {σ : Type} (body : Nat → σ → Option σ) (k : Nat) :
    ∀ (n start : Nat) (s : σ), start ≤ k → k < start + n →
      (∀ i t, i ≠ k → start ≤ i → i < start + n → body i t = some t) →
      forLoop body n start s = body k s := by
  intro n
  induction n with
  | zero => intro start s h1 h2 _; omega
  | succ n ih =>
    intro start s hk1 hk2 hb
    by_cases hsk : start = k
    · subst hsk
      cases hr : body start s with
      | none => simp [forLoop, hr]
      | some t =>
        have := forLoop_id body n (start + 1) t
          (fun i u hi1 hi2 => hb i u (by omega) (by omega) (by omega))
        simp [forLoop, hr, this]
    · have h1 := hb start s hsk (le_refl _) (by omega)
      have h2 := ih (start + 1) s (by omega) (by omega)
        (fun i t hik hi1 hi2 => hb i t hik (by omega) (by omega))
      simp [forLoop, h1, h2]

theorem removeJoint_absent (s : AppState K) (sel : Ptr) (tl : List Ptr)
    (hsel : s.selected = sel :: tl) (habs : ∀ i, 1 ≤ i → s.scene[i]? ≠ some sel) :
    removeJoint s = none := by
  have hloop : forLoop (removeJointVisit sel s.scene) (s.scene.length - 1) 1
      ({ heap := s.heap, eraseIndex := -1, re := -1 } : RemoveLoop K)
      = some { heap := s.heap, eraseIndex := -1, re := -1 } := by
    apply forLoop_id
    intro i t hi1 hi2
    have hi : i < s.scene.length := by omega
    obtain ⟨x, hx⟩ : ∃ x, s.scene[i]? = some x := ⟨_, List.getElem?_eq_getElem hi⟩
    have hne : sel ≠ x := by
      intro hEq
      subst hEq
      exact habs i hi1 hx
    simp [removeJointVisit, hx, hne]
  simp [removeJoint, hsel, hloop]

/-- C13: `exampleChainScene` has the joint at address 2 selected. Loading
`exampleOneJointFile` replaces the scene by `[4, 5]` and keeps the selection, so
the selected node is not in the scene; `removeJoint` then finds no index, keeps
`eraseIndex = -1` and erases at `scene.begin() - 1`, which is undefined
behaviour (`none`), not a call that returns with the state unchanged. -/
theorem removeJoint_stale_selection :
    ∃ s', loadFromFile (some exampleOneJointFile) (exampleChainScene : AppState ℚ)
          = LoadOutcome.loaded s'
        ∧ s'.selected = [2] ∧ s'.scene = [4, 5] ∧ removeJoint s' = none := by
  exact ⟨_, rfl, rfl, rfl, rfl⟩

/-! ### The tracked-set invariant -/

theorem setStartValues_wf (kf : Keyframe K) (h : Heap K) (obj : Ptr) (hwf : kf.WF) :
    ∃ kf1, kf.setStartValues h obj = some kf1 ∧ kf1.WF := by
  obtain ⟨hnd, h1, h2, h3, h4⟩ := hwf
  by_cases hobj : obj ∈ kf.addedNodes
  · obtain ⟨i, hi⟩ := List.mem_iff_getElem?.1 hobj
    have hidx := getIndex_tracked kf obj i hnd hi
    have hlt : i < kf.addedNodes.length := (List.getElem?_eq_some.1 hi).1
    have hne : ((i : Int) = -1) = False := by
      simp only [eq_iff_iff, iff_false]
      omega
    refine ⟨{ kf with
        nStartPos := kf.nStartPos.set i (h obj).position
        nStartRot := kf.nStartRot.set i (h obj).rotation }, ?_, ?_⟩
    · simp only [Keyframe.setStartValues, hidx, hne, if_false, Int.toNat_ofNat, h1, h2, hlt,
        and_self, if_true]
    · exact ⟨hnd, by simp [h1], by simp [h2], h3, h4⟩
  · have hidx := getIndex_untracked kf obj hobj
    refine ⟨{ kf with
        addedNodes := kf.addedNodes ++ [obj]
        nStartPos := kf.nStartPos ++ [(h obj).position]
        nStartRot := kf.nStartRot ++ [(h obj).rotation]
        nEndPos := kf.nEndPos ++ [(h obj).position]
        nEndRot := kf.nEndRot ++ [(h obj).rotation] }, ?_, ?_⟩
    · simp [Keyframe.setStartValues, hidx]
    · refine ⟨?_, by simp [h1], by simp [h2], by simp [h3], by simp [h4]⟩
      simp [List.nodup_append, hnd, hobj]

theorem setEndValues_wf (kf : Keyframe K) (h : Heap K) (obj : Ptr) (hwf : kf.WF) :
    ∃ kf1, kf.setEndValues h obj = some kf1 ∧ kf1.WF := by
  obtain ⟨hnd, h1, h2, h3, h4⟩ := hwf
  by_cases hobj : obj ∈ kf.addedNodes
  · obtain ⟨i, hi⟩ := List.mem_iff_getElem?.1 hobj
    have hidx := getIndex_tracked kf obj i hnd hi
    have hlt : i < kf.addedNodes.length := (List.getElem?_eq_some.1 hi).1
    have hne : ((i : Int) = -1) = False := by
      simp only [eq_iff_iff, iff_false]
      omega
    refine ⟨{ kf with
        nEndPos := kf.nEndPos.set i (h obj).position
        nEndRot := kf.nEndRot.set i (h obj).rotation }, ?_, ?_⟩
    · simp only [Keyframe.setEndValues, hidx, hne, if_false, Int.toNat_ofNat, h3, h4, hlt,
        and_self, if_true]
    · exact ⟨hnd, h1, h2, by simp [h3], by simp [h4]⟩
  · have hidx := getIndex_untracked kf obj hobj
    refine ⟨{ kf with
        addedNodes := kf.addedNodes ++ [obj]
        nStartPos := kf.nStartPos ++ [(h obj).position]
        nStartRot := kf.nStartRot ++ [(h obj).rotation]
        nEndPos := kf.nEndPos ++ [(h obj).position]
        nEndRot := kf.nEndRot ++ [(h obj).rotation] }, ?_, ?_⟩
    · simp [Keyframe.setEndValues, hidx]
    · refine ⟨?_, by simp [h1], by simp [h2], by simp [h3], by simp [h4]⟩
      simp [List.nodup_append, hnd, hobj]

theorem keyframeReachable_wf (kf : Keyframe K) (hr : KeyframeReachable kf) : kf.WF := by
  induction hr with
  | init => exact ⟨List.nodup_nil, rfl, rfl, rfl, rfl⟩
  | start kf kf1 h obj _ e ih =>
    obtain ⟨kf2, e2, hwf⟩ := setStartValues_wf kf h obj ih
    rw [e2] at e
    cases e
    exact hwf
  | stop kf kf1 h obj _ e ih =>
    obtain ⟨kf2, e2, hwf⟩ := setEndValues_wf kf h obj ih
    rw [e2] at e
    cases e
    exact hwf

/-- C15: in every `Keyframe` state reached from the empty one by calls of
`setStartValues` and `setEndValues`, no node occurs twice in `addedNodes` and
`nStartPos`, `nStartRot`, `nEndPos`, `nEndRot` each have as many entries as
`addedNodes`; in such a state both calls return, for every node. -/
theorem keyframe_tracked_invariant (kf : Keyframe K) (hr : KeyframeReachable kf) :
    kf.addedNodes.Nodup
    ∧ kf.nStartPos.length = kf.addedNodes.length
    ∧ kf.nStartRot.length = kf.addedNodes.length
    ∧ kf.nEndPos.length = kf.addedNodes.length
    ∧ kf.nEndRot.length = kf.addedNodes.length
    ∧ ∀ (h : Heap K) (obj : Ptr),
        (kf.setStartValues h obj).isSome = true ∧ (kf.setEndValues h obj).isSome = true := by
  have hwf := keyframeReachable_wf kf hr
  obtain ⟨a1, a2, a3, a4, a5⟩ := hwf
  refine ⟨a1, a2, a3, a4, a5, fun h obj => ⟨?_, ?_⟩⟩
  · obtain ⟨kf1, e, _⟩ := setStartValues_wf kf h obj ⟨a1, a2, a3, a4, a5⟩
    simp [e]
  · obtain ⟨kf1, e, _⟩ := setEndValues_wf kf h obj ⟨a1, a2, a3, a4, a5⟩
    simp [e]

/-- Witness of C15: the state after recording the start pose of the node at
address 0 and then the end pose of the node at address 1. -/
theorem keyframe_tracked_invariant_witness :
    ∃ kf1 kf2, (Keyframe.init : Keyframe ℚ).setStartValues exampleMovedRoot 0 = some kf1
      ∧ kf1.setEndValues exampleMovedRoot 1 = some kf2
      ∧ kf2.addedNodes = [0, 1]
      ∧ kf2.addedNodes.Nodup
      ∧ kf2.nStartPos.length = kf2.addedNodes.length
      ∧ kf2.nStartRot.length = kf2.addedNodes.length
      ∧ kf2.nEndPos.length = kf2.addedNodes.length
      ∧ kf2.nEndRot.length = kf2.addedNodes.length
      ∧ ∀ (h : Heap ℚ) (obj : Ptr),
          (kf2.setStartValues h obj).isSome = true ∧ (kf2.setEndValues h obj).isSome = true :=
  ⟨_, _, rfl, rfl, rfl,
    keyframe_tracked_invariant _
      (KeyframeReachable.stop _ _ exampleMovedRoot 1
        (KeyframeReachable.start _ _ exampleMovedRoot 0 KeyframeReachable.init rfl) rfl)⟩

/-! ### Staging and one step of playback -/

/-- C16: for a keyframe table that satisfies the class invariant,
`setTheStage rev d` returns; it sets `duration = d` and `frameNumber = 0`, leaves
the frame rate, the tracked nodes and the four pose tables unchanged, leaves
`deltaPos` and `deltaRot` with one entry per tracked node, and for every tracked
node `i`: when `rev` is false the node gets the recorded start pose and the
deltas are `(end - start) / (frameRate * d)`; when `rev` is true the node gets
the recorded end pose and the deltas are `(start - end) / (frameRate * d)`. -/
theorem setTheStage_effect (kf : Keyframe K) (h : Heap K) (rev : Bool) (d : K) (hwf : kf.WF) :
    ∃ kf1 h1, kf.setTheStage h rev d = some (kf1, h1)
      ∧ kf1.duration = d ∧ kf1.frameNumber = 0 ∧ kf1.frameRate = kf.frameRate
      ∧ kf1.addedNodes = kf.addedNodes
      ∧ kf1.nStartPos = kf.nStartPos ∧ kf1.nStartRot = kf.nStartRot
      ∧ kf1.nEndPos = kf.nEndPos ∧ kf1.nEndRot = kf.nEndRot
      ∧ kf1.deltaPos.length = kf.addedNodes.length
      ∧ kf1.deltaRot.length = kf.addedNodes.length
      ∧ ∀ (i : Nat) node sp sr ep er, kf.addedNodes[i]? = some node →
          kf.nStartPos[i]? = some sp → kf.nStartRot[i]? = some sr →
          kf.nEndPos[i]? = some ep → kf.nEndRot[i]? = some er →
          (rev = false →
            (h1 node).position = sp ∧ (h1 node).rotation = sr
            ∧ kf1.deltaPos[i]? = some (Vec3.divS (ep - sp) (kf.frameRate * d))
            ∧ kf1.deltaRot[i]? = some (Vec3.divS (er - sr) (kf.frameRate * d)))
          ∧ (rev = true →
            (h1 node).position = ep ∧ (h1 node).rotation = er
            ∧ kf1.deltaPos[i]? = some (Vec3.divS (sp - ep) (kf.frameRate * d))
            ∧ kf1.deltaRot[i]? = some (Vec3.divS (sr - er) (kf.frameRate * d))) := by
  obtain ⟨dP, dR, h0, e0, l1, l2, hspec⟩ := setTheStage_spec kf h rev d hwf
  refine ⟨_, h0, e0, rfl, rfl, rfl, rfl, rfl, rfl, rfl, rfl, l1, l2, ?_⟩
  intro i node sp sr ep er hn hsp hsr hep her
  obtain ⟨q1, q2, q3, q4⟩ := hspec i node sp sr ep er hn hsp hsr hep her
  constructor
  · intro hr
    subst hr
    exact ⟨by simpa using q3, by simpa using q4, by simpa using q1, by simpa using q2⟩
  · intro hr
    subst hr
    exact ⟨by simpa using q3, by simpa using q4, by simpa using q1, by simpa using q2⟩

/-- Witness of C16 on `exampleKeyframe`, staged forward with half-duration `1/2`. -/
theorem setTheStage_effect_witness :
    ∃ kf1 h1, (exampleKeyframe : Keyframe ℚ).setTheStage exampleMovedRoot false (1 / 2)
          = some (kf1, h1)
      ∧ kf1.duration = 1 / 2 ∧ kf1.frameNumber = 0
      ∧ kf1.deltaPos.length = 1 ∧ kf1.deltaRot.length = 1
      ∧ (h1 0).position = ⟨0, 0, 0⟩
      ∧ kf1.deltaPos[0]? = some (Vec3.divS ((⟨1, 2, 3⟩ : Vec3 ℚ) - ⟨0, 0, 0⟩) (60 * (1 / 2))) := by
  obtain ⟨kf1, h1, e, a1, a2, _, _, _, _, _, _, a3, a4, hall⟩ :=
    setTheStage_effect (exampleKeyframe : Keyframe ℚ) exampleMovedRoot false (1 / 2)
      ⟨by simp [exampleKeyframe], rfl, rfl, rfl, rfl⟩
  obtain ⟨b1, _, b3, _⟩ :=
    (hall 0 0 ⟨0, 0, 0⟩ ⟨0, 0, 0⟩ ⟨1, 2, 3⟩ ⟨0, 90, 0⟩ rfl rfl rfl rfl rfl).1 rfl
  exact ⟨kf1, h1, e, a1, a2, a3, a4, b1, b3⟩

theorem Vec3.scale_divS_two (v : Vec3 K) (c : K) :
    Vec3.scale (Vec3.divS (-v) 2) c = Vec3.scale (-v) (c / 2) := by
  simp only [Vec3.scale, Vec3.divS, Vec3.neg_def, Vec3.mk.injEq]
  refine ⟨?_, ?_, ?_⟩ <;> ring

/-- C17: in exact real arithmetic, when no node is tracked twice and `deltaPos`,
`deltaRot` have one entry per tracked node, one call of `playback` with frame
number `f` returns; it adds `-delta * e` to the position and to the rotation of
every tracked node, `e` being the easing coefficient at `f`, sets the frame
number to `f + 1` and returns the truth value of
`f + 1 < frameRate * duration * 2`; `e` is `0` at `f = 0` and `-1` at
`f = frameRate * duration` (when that product is not zero). -/
theorem playback_effect (kf : Keyframe ℝ) (h : Heap ℝ) (hnd : kf.addedNodes.Nodup)
    (hl1 : kf.deltaPos.length = kf.addedNodes.length)
    (hl2 : kf.deltaRot.length = kf.addedNodes.length) :
    (∃ h1,
      kf.playback (⟨Real.cos, Real.sin, Real.sqrt, Real.pi⟩ : FloatOps ℝ) h
        = some (decide (kf.frameNumber + 1 < kf.frameRate * kf.duration * 2),
                { kf with frameNumber := kf.frameNumber + 1 }, h1)
      ∧ ∀ (i : Nat) node dp dr, kf.addedNodes[i]? = some node → kf.deltaPos[i]? = some dp →
          kf.deltaRot[i]? = some dr →
          (h1 node).position = (h node).position + Vec3.scale (-dp)
              (easingCoefficient (⟨Real.cos, Real.sin, Real.sqrt, Real.pi⟩ : FloatOps ℝ) kf)
          ∧ (h1 node).rotation = (h node).rotation + Vec3.scale (-dr)
              (easingCoefficient (⟨Real.cos, Real.sin, Real.sqrt, Real.pi⟩ : FloatOps ℝ) kf))
    ∧ (kf.frameNumber = 0 →
        easingCoefficient (⟨Real.cos, Real.sin, Real.sqrt, Real.pi⟩ : FloatOps ℝ) kf = 0)
    ∧ (kf.frameRate * kf.duration ≠ 0 → kf.frameNumber = kf.frameRate * kf.duration →
        easingCoefficient (⟨Real.cos, Real.sin, Real.sqrt, Real.pi⟩ : FloatOps ℝ) kf = -1) := by
  refine ⟨?_, ?_, ?_⟩
  · obtain ⟨h1, e1, e2⟩ := playback_spec (⟨Real.cos, Real.sin, Real.sqrt, Real.pi⟩ : FloatOps ℝ)
      kf h hnd hl1 hl2
    refine ⟨h1, e1, ?_⟩
    intro i node dp dr hn hdp hdr
    obtain ⟨q1, q2⟩ := e2 i node dp dr hn hdp hdr
    rw [q1, q2, Vec3.scale_divS_two, Vec3.scale_divS_two]
    exact ⟨rfl, rfl⟩
  · intro h0
    simp [easingCoefficient, h0]
  · intro hne hf
    simp only [easingCoefficient]
    rw [hf, mul_div_assoc, div_self hne, mul_one, Real.cos_pi]
    norm_num

/-- Witness of C17 on `exampleStagedKeyframe` at frame number 0. -/
theorem playback_effect_witness :
    ∃ h1,
      (exampleStagedKeyframe : Keyframe ℝ).playback
          (⟨Real.cos, Real.sin, Real.sqrt, Real.pi⟩ : FloatOps ℝ) exampleMovedRoot
        = some (decide ((exampleStagedKeyframe : Keyframe ℝ).frameNumber + 1
                  < (exampleStagedKeyframe : Keyframe ℝ).frameRate
                    * (exampleStagedKeyframe : Keyframe ℝ).duration * 2),
                { (exampleStagedKeyframe : Keyframe ℝ) with
                  frameNumber := (exampleStagedKeyframe : Keyframe ℝ).frameNumber + 1 }, h1)
      ∧ (h1 0).position = ((exampleMovedRoot : Heap ℝ) 0).position
          + Vec3.scale (-(⟨1, 2, 3⟩ : Vec3 ℝ))
              (easingCoefficient (⟨Real.cos, Real.sin, Real.sqrt, Real.pi⟩ : FloatOps ℝ)
                exampleStagedKeyframe) :=
  (playback_effect (exampleStagedKeyframe : Keyframe ℝ) exampleMovedRoot
    (by simp [exampleStagedKeyframe, exampleKeyframe]) rfl rfl).1.imp
    fun _ hh => ⟨hh.1, (hh.2 0 0 ⟨1, 2, 3⟩ ⟨0, 90, 0⟩ rfl rfl rfl).1⟩

/-! ### Recording and deleting while the animation plays -/

/-- C18: after the events of `exampleRecordWhilePlaying` the application is
playing, `addedNodes` has two entries and `deltaPos`, `deltaRot` have one, and
the next `update` reads `deltaPos[1]` out of range (it does not return); after
the events of `exampleDeleteWhilePlaying` the application is playing,
`addedNodes` is empty and `deltaPos`, `deltaRot` still have one entry. -/
theorem playback_tables_out_of_step :
    (handleEvents (⟨Real.cos, Real.sin, Real.sqrt, Real.pi⟩ : FloatOps ℝ) 2
        exampleRecordWhilePlaying AppState.setup).map
      (fun s => (s.playing, s.animation.addedNodes, s.animation.deltaPos.length,
        s.animation.deltaRot.length,
        (update (⟨Real.cos, Real.sin, Real.sqrt, Real.pi⟩ : FloatOps ℝ) s).isSome))
      = some (true, [1, 2], 1, 1, false)
    ∧ (handleEvents (⟨Real.cos, Real.sin, Real.sqrt, Real.pi⟩ : FloatOps ℝ) 2
        exampleDeleteWhilePlaying AppState.setup).map
      (fun s => (s.playing, s.animation.addedNodes, s.animation.deltaPos.length,
        s.animation.deltaRot.length))
      = some (true, [], 1, 1) := by
  constructor
  · decide
  · decide

/-! ### The joint counter after loading -/

/-- C19: loading `exampleTwoDigitFile` into the state after `setup` (joint counter
0) returns with `jointNumber = 10`, because only the last character of each joint
name is read; the scene then holds a joint named `joint10`, and the next
`createJoint` names its joint `joint10` as well. -/
theorem jointNumber_last_digit_only :
    (loadFromFile (some exampleTwoDigitFile) (AppState.setup : AppState ℝ)).returned?.map
      (fun s1 => (s1.jointNumber, s1.scene.map (fun p => (s1.heap p).name),
        (createJoint (⟨Real.cos, Real.sin, Real.sqrt, Real.pi⟩ : FloatOps ℝ) 1 ⟨0, 0, 0⟩ s1).map
          (fun s2 => s2.scene.map (fun p => (s2.heap p).name))))
      = some (10, ["SceneObject", "joint9", "joint10"],
          some ["SceneObject", "joint9", "joint10", "joint10"]) := by
  decide!

/-! ### The forest invariant -/

theorem addChild_parent (h : Heap K) (p c q : Ptr) :
    (addChild h p c q).parent = if q = c then some p else (h q).parent := by
  by_cases hqc : q = c
  · simp [addChild, Heap.set, hqc]
  · by_cases hqp : q = p
    · subst hqp
      simp [addChild, Heap.set, hqc]
    · simp [addChild, Heap.set, hqc, hqp]

theorem addChild_childList (h : Heap K) (p c q : Ptr) :
    (addChild h p c q).childList = if q = p then (h p).childList ++ [c] else (h q).childList := by
  by_cases hqc : q = c
  · subst hqc
    by_cases hqp : q = p
    · subst hqp
      simp [addChild, Heap.set]
    · simp [addChild, Heap.set, hqp]
  · by_cases hqp : q = p
    · subst hqp
      simp [addChild, Heap.set, hqc]
    · simp [addChild, Heap.set, hqc, hqp]

theorem foldl_addChild_parent (p : Ptr) :
    ∀ (l : List Ptr) (h : Heap K) (q : Ptr),
      ((l.foldl (fun g c => addChild g p c) h) q).parent
        = if q ∈ l then some p else (h q).parent := by
  intro l
  induction l with
  | nil => intro h q; simp
  | cons c rest ih =>
    intro h q
    rw [List.foldl_cons, ih, addChild_parent]
    by_cases h1 : q ∈ rest
    · simp [h1]
    · by_cases h2 : q = c
      · simp [h2]
      · simp [h1, h2]

theorem foldl_addChild_childList (p : Ptr) :
    ∀ (l : List Ptr) (h : Heap K) (q : Ptr),
      ((l.foldl (fun g c => addChild g p c) h) q).childList
        = if q = p then (h p).childList ++ l else (h q).childList := by
  intro l
  induction l with
  | nil => intro h q; by_cases hq : q = p <;> simp [hq]
  | cons c rest ih =>
    intro h q
    rw [List.foldl_cons, ih, addChild_childList, addChild_childList]
    by_cases hq : q = p
    · simp [hq]
    · simp [hq]

theorem foldl_unparent_parent :
    ∀ (l : List Ptr) (h : Heap K) (q : Ptr),
      ((l.foldl (fun g c => Heap.set g c { g c with parent := none }) h) q).parent
        = if q ∈ l then none else (h q).parent := by
  intro l
  induction l with
  | nil => intro h q; simp
  | cons c rest ih =>
    intro h q
    rw [List.foldl_cons, ih]
    by_cases h1 : q ∈ rest
    · simp [h1]
    · by_cases h2 : q = c
      · simp [h2, Heap.set]
      · simp [h1, h2, Heap.set]

theorem foldl_unparent_childList :
    ∀ (l : List Ptr) (h : Heap K) (q : Ptr),
      ((l.foldl (fun g c => Heap.set g c { g c with parent := none }) h) q).childList
        = (h q).childList := by
  intro l
  induction l with
  | nil => intro h q; rfl
  | cons c rest ih =>
    intro h q
    rw [List.foldl_cons, ih]
    by_cases h2 : q = c
    · simp [h2, Heap.set]
    · simp [h2, Heap.set]

theorem rooted_of_skip (h g : Heap K) (x p : Ptr) (hx : (h x).parent = some p)
    (hg : ∀ q, (g q).parent = (h q).parent ∨ ((h q).parent = some x ∧ (g q).parent = some p))
    (q : Ptr) (hq : Rooted h q) : Rooted g q := by
  have hgx : (g x).parent = some p := by
    rcases hg x with e | e
    · rw [e, hx]
    · exact e.2
  induction hq with
  | root r hr =>
    rcases hg r with e | e
    · exact Rooted.root r (by rw [e, hr])
    · rw [hr] at e
      cases e.1
  | step r t hrt _ ih =>
    rcases hg r with e | e
    · exact Rooted.step r t (by rw [e, hrt]) ih
    · have ht : t = x := by
        have := e.1
        rw [hrt] at this
        exact Option.some.inj this
      subst ht
      cases ih with
      | root _ h0 => rw [hgx] at h0; cases h0
      | step _ u hu hru =>
        have : u = p := by
          rw [hgx] at hu
          exact (Option.some.inj hu).symm
        subst this
        exact Rooted.step r u e.2 hru

theorem rooted_of_cut (h g : Heap K)
    (hg : ∀ q, (g q).parent = (h q).parent ∨ (g q).parent = none)
    (q : Ptr) (hq : Rooted h q) : Rooted g q := by
  induction hq with
  | root r hr =>
    rcases hg r with e | e
    · exact Rooted.root r (by rw [e, hr])
    · exact Rooted.root r e
  | step r t hrt _ ih =>
    rcases hg r with e | e
    · exact Rooted.step r t (by rw [e, hrt]) ih
    · exact Rooted.root r e

theorem rooted_of_fresh (h g : Heap K) (c : Ptr)
    (hg : ∀ q, q ≠ c → (g q).parent = (h q).parent)
    (hc : ∀ q, (h q).parent ≠ some c)
    (q : Ptr) (hqc : q ≠ c) (hq : Rooted h q) : Rooted g q := by
  induction hq with
  | root r hr => exact Rooted.root r (by rw [hg r hqc, hr])
  | step r t hrt _ ih =>
    have htc : t ≠ c := by
      intro e
      subst e
      exact hc r hrt
    exact Rooted.step r t (by rw [hg r hqc, hrt]) (ih htc)

theorem rooted_path (h : Heap K) (p : Ptr) (hp : Rooted h p) :
    ∃ path, parentPath h path = true ∧ path.head? = some p := by
  induction hp with
  | root r hr => exact ⟨[r], by simp [parentPath, hr], rfl⟩
  | step r t hrt _ ih =>
    obtain ⟨path, h1, h2⟩ := ih
    cases path with
    | nil => simp at h2
    | cons a rest =>
      have ha : a = t := by simpa using h2
      subst ha
      exact ⟨r :: a :: rest, by simp [parentPath, hrt, h1], rfl⟩

theorem pickNearest_mem (F : FloatOps K) (h : Heap K) (camPos : Vec3 K) :
    ∀ (l : List Ptr) (nd : Option K) (sel : Ptr),
      pickNearest F h camPos l nd sel = sel ∨ pickNearest F h camPos l nd sel ∈ l := by
  intro l
  induction l with
  | nil => intro nd sel; left; rfl
  | cons n rest ih =>
    intro nd sel
    simp only [pickNearest]
    split
    · rcases ih (some (Vec3.length F ((h n).position - camPos))) n with e | e
      · right; rw [e]; exact List.mem_cons_self _ _
      · right; exact List.mem_cons_of_mem _ e
    · rcases ih nd sel with e | e
      · left; exact e
      · right; exact List.mem_cons_of_mem _ e

theorem createJoint_shape (F : FloatOps K) (fuel : Nat) (point : Vec3 K) (s s1 : AppState K)
    (hsel : ∀ p ∈ s.selected, p < s.next) (e : createJoint F fuel point s = some s1) :
    s1.next = s.next + 1 ∧ s1.scene = s.scene ++ [s.next] ∧ s1.selected = s.selected
    ∧ (∀ q, (s1.heap q).parent = if q = s.next then s.selected.head? else (s.heap q).parent)
    ∧ (∀ q, (s1.heap q).childList
        = if q = s.next then []
          else if s.selected.head? = some q then (s.heap q).childList ++ [s.next]
          else (s.heap q).childList) := by
  unfold createJoint at e
  cases hs : s.selected with
  | nil =>
    rw [hs] at e
    simp only [setPosition] at e
    cases hM : getMatrix F (Heap.set s.heap s.next
        { newJoint (Vec3.zero : Vec3 K) s.radius with
          name := (newJoint (Vec3.zero : Vec3 K) s.radius).name ++ toString s.jointNumber })
        fuel s.next with
    | none => rw [hM] at e; simp at e
    | some M =>
      rw [hM] at e
      simp only [Option.map_some', Option.some.injEq] at e
      subst e
      refine ⟨rfl, rfl, by simp [hs], ?_, ?_⟩
      · intro q
        by_cases hq : q = s.next
        · simp [Heap.set, hq, newJoint]
        · simp [Heap.set, hq]
      · intro q
        by_cases hq : q = s.next
        · simp [Heap.set, hq, newJoint]
        · simp [Heap.set, hq]
  | cons sel tl =>
    rw [hs] at e
    have hsl : sel < s.next := hsel sel (by rw [hs]; exact List.mem_cons_self _ _)
    have hne : sel ≠ s.next := Nat.ne_of_lt hsl
    simp only [getPosition, setPosition] at e
    cases hM1 : getMatrix F (Heap.set s.heap s.next
        { newJoint (Vec3.zero : Vec3 K) s.radius with
          name := (newJoint (Vec3.zero : Vec3 K) s.radius).name ++ toString s.jointNumber })
        fuel sel with
    | none => rw [hM1] at e; simp at e
    | some M1 =>
      cases hM : getMatrix F (Heap.set s.heap s.next
          { newJoint (Vec3.zero : Vec3 K) s.radius with
            name := (newJoint (Vec3.zero : Vec3 K) s.radius).name ++ toString s.jointNumber })
          fuel s.next with
      | none => rw [hM1, hM] at e; simp at e
      | some M =>
        rw [hM1, hM] at e
        simp only [Option.map_some', Option.some_bind, Option.some.injEq] at e
        subst e
        refine ⟨rfl, rfl, by simp [hs], ?_, ?_⟩
        · intro q
          simp only [addChild_parent]
          by_cases hq : q = s.next
          · simp [hq]
          · simp [Heap.set, hq]
        · intro q
          simp only [addChild_childList]
          by_cases hq : q = s.next
          · subst hq
            have : ¬ (s.next = sel) := fun e => hne e.symm
            simp [Heap.set, this, newJoint, hne]
          · by_cases hqs : q = sel
            · subst hqs
              simp [Heap.set, hq]
            · have : ¬ (sel = q) := fun e => hqs e.symm
              simp [Heap.set, hq, hqs, this]

theorem removeJoint_shape (s s1 : AppState K) (sel : Ptr) (tl : List Ptr)
    (hsel : s.selected = sel :: tl) (hnd : s.scene.Nodup) (e : removeJoint s = some s1) :
    ∃ k, 1 ≤ k ∧ s.scene[k]? = some sel ∧ s1.scene = s.scene.eraseIdx k ∧ s1.next = s.next
      ∧ s1.selected = []
      ∧ (((s.heap sel).parent = none
          ∧ (∀ q, (s1.heap q).parent
              = if q ∈ (s.heap sel).childList then none else (s.heap q).parent)
          ∧ ∀ q, (s1.heap q).childList = (s.heap q).childList)
        ∨ ∃ p, (s.heap sel).parent = some p ∧ p ≠ sel
          ∧ (∀ q, (s1.heap q).parent
              = if q ∈ (s.heap sel).childList then some p else (s.heap q).parent)
          ∧ (∀ q, q ≠ p → (s1.heap q).childList = (s.heap q).childList)
          ∧ ∀ c ∈ (s1.heap p).childList,
              c ∈ (s.heap p).childList ∨ c ∈ (s.heap sel).childList) := by
  by_cases hex : ∃ k, 1 ≤ k ∧ s.scene[k]? = some sel
  · obtain ⟨k, hk1, hk⟩ := hex
    have hklt : k < s.scene.length := (List.getElem?_eq_some.1 hk).1
    have hloop : forLoop (removeJointVisit sel s.scene) (s.scene.length - 1) 1
        ({ heap := s.heap, eraseIndex := -1, re := -1 } : RemoveLoop K)
        = removeJointVisit sel s.scene k { heap := s.heap, eraseIndex := -1, re := -1 } :=
      forLoop_eq_at _ k _ 1 _ hk1 (by omega)
        (fun i t hik _ hi => removeJointVisit_other sel s.scene hnd k hk i t hik (by omega))
    simp only [removeJoint, hsel, hloop] at e
    cases hpar : (s.heap sel).parent with
    | none =>
      simp only [removeJointVisit, hk, if_true, hpar, Option.some_bind] at e
      have hin : (0 : Int) ≤ (k : Int) ∧ (k : Int) < (s.scene.length : Int) := by
        constructor <;> omega
      simp only [hin, and_self, if_true, Option.some.injEq, Int.toNat_ofNat] at e
      subst e
      refine ⟨k, hk1, hk, rfl, rfl, rfl, Or.inl ⟨rfl, ?_, ?_⟩⟩
      · intro q
        exact foldl_unparent_parent _ _ q
      · intro q
        exact foldl_unparent_childList _ _ q
    | some p =>
      simp only [removeJointVisit, hk, if_true, hpar] at e
      by_cases hpx : p = sel
      · simp [hpx] at e
      · simp only [hpx, if_false] at e
        obtain ⟨st, h1, h2⟩ := Option.bind_eq_some.1 e
        rw [Option.ite_none_right_eq_some] at h1
        obtain ⟨_, h1⟩ := h1
        cases h1
        have hin : (0 : Int) ≤ (k : Int) ∧ (k : Int) < (s.scene.length : Int) := by
          constructor <;> omega
        simp only [hin, and_self, if_true, Option.some.injEq, Int.toNat_ofNat] at h2
        subst h2
        refine ⟨k, hk1, hk, rfl, rfl, rfl, Or.inr ⟨p, rfl, hpx, ?_, ?_, ?_⟩⟩
        · intro q
          by_cases hq : q = p
          · subst hq
            simp only [Heap.set, if_true]
            exact foldl_addChild_parent _ _ _ _
          · simp only [Heap.set, hq, if_false]
            exact foldl_addChild_parent _ _ _ _
        · intro q hq
          simp only [Heap.set, hq, if_false]
          rw [foldl_addChild_childList]
          simp [hq]
        · intro c hc
          simp only [Heap.set, if_true] at hc
          have hc2 := List.mem_of_mem_eraseIdx hc
          rw [foldl_addChild_childList] at hc2
          simpa using hc2
  · have habs : ∀ i, 1 ≤ i → s.scene[i]? ≠ some sel := by
      intro i hi h
      exact hex ⟨i, hi, h⟩
    rw [removeJoint_absent s sel tl hsel habs] at e
    cases e

theorem not_mem_eraseIdx_of_nodup {l : List Ptr} (hl : l.Nodup) {k : Nat} {a : Ptr}
    (hk : l[k]? = some a) : a ∉ l.eraseIdx k := by
  intro hmem
  obtain ⟨i, hik, hi⟩ := List.mem_eraseIdx_iff_getElem?.1 hmem
  exact hik (nodup_getElem?_inj hl hi hk)

theorem sceneInv_setup : SceneInv (AppState.setup : AppState K) := by
  refine ⟨by simp [AppState.setup], ?_, ?_, ?_, ?_, ?_, ?_⟩
  · intro p hp
    have h0 : p = 0 := by simpa [AppState.setup] using hp
    rw [h0]
    exact Nat.zero_lt_one
  · intro p hp
    simp [AppState.setup] at hp
  · intro q c hc
    simp [AppState.setup, newPlane] at hc
  · intro q p hp
    simp [AppState.setup, newPlane] at hp
  · intro x _ c hc
    simp [AppState.setup, newPlane] at hc
  · intro p
    exact Rooted.root p rfl

theorem sceneInv_mouse (F : FloatOps K) (camInput : Bool) (intersects : Ptr → Bool)
    (camPos : Vec3 K) (s : AppState K) (hs : SceneInv s) :
    SceneInv (mousePressed F camInput intersects camPos s) := by
  simp only [mousePressed]
  split
  · exact hs
  · split
    · exact ⟨hs.nodup, hs.scene_lt, by intro p hp; simp at hp, hs.child_lt, hs.parent_lt,
        hs.child_parent, hs.rooted⟩
    · rename_i h0 tl heq
      refine ⟨hs.nodup, hs.scene_lt, ?_, hs.child_lt, hs.parent_lt, hs.child_parent, hs.rooted⟩
      intro p hp
      have hp2 : p = pickNearest F s.heap camPos
          (s.scene.filter fun p => (s.heap p).isSelectable && intersects p) none h0 := by
        simpa using hp
      have hmem : p ∈ s.scene.filter fun p => (s.heap p).isSelectable && intersects p := by
        rcases pickNearest_mem F s.heap camPos
          (s.scene.filter fun p => (s.heap p).isSelectable && intersects p) none h0 with e | e
        · rw [hp2, e, heq]; exact List.mem_cons_self _ _
        · rw [hp2]; exact e
      exact hs.scene_lt p (List.mem_filter.1 hmem).1

theorem sceneInv_create (F : FloatOps K) (fuel : Nat) (point : Vec3 K) (s s1 : AppState K)
    (hs : SceneInv s) (e : createJoint F fuel point s = some s1) : SceneInv s1 := by
  obtain ⟨e1, e2, e3, epar, ech⟩ := createJoint_shape F fuel point s s1 hs.sel_lt e
  have hfresh : s.next ∉ s.scene := fun hmem => Nat.lt_irrefl _ (hs.scene_lt _ hmem)
  refine ⟨?_, ?_, ?_, ?_, ?_, ?_, ?_⟩
  · rw [e2]
    exact List.nodup_append.2 ⟨hs.nodup, List.nodup_singleton _, by
      intro a ha hb
      have : a = s.next := by simpa using hb
      rw [this] at ha
      exact hfresh ha⟩
  · intro p hp
    rw [e2] at hp
    rw [e1]
    rcases List.mem_append.1 hp with h | h
    · exact Nat.lt_succ_of_lt (hs.scene_lt p h)
    · have : p = s.next := by simpa using h
      rw [this]
      exact Nat.lt_succ_self _
  · intro p hp
    rw [e3] at hp
    rw [e1]
    exact Nat.lt_succ_of_lt (hs.sel_lt p hp)
  · intro q c hc
    rw [ech] at hc
    rw [e1]
    by_cases hq : q = s.next
    · simp [hq] at hc
    · simp only [hq, if_false] at hc
      split at hc
      · rcases List.mem_append.1 hc with h | h
        · exact Nat.lt_succ_of_lt (hs.child_lt q c h)
        · have : c = s.next := by simpa using h
          rw [this]
          exact Nat.lt_succ_self _
      · exact Nat.lt_succ_of_lt (hs.child_lt q c hc)
  · intro q p hp
    rw [epar] at hp
    rw [e1]
    by_cases hq : q = s.next
    · simp only [hq, if_true] at hp
      have : p ∈ s.selected := List.mem_of_mem_head? hp
      exact Nat.lt_succ_of_lt (hs.sel_lt p this)
    · simp only [hq, if_false] at hp
      exact Nat.lt_succ_of_lt (hs.parent_lt q p hp)
  · intro x hx c hc
    rw [e2] at hx
    rw [ech] at hc
    by_cases hxn : x = s.next
    · simp [hxn] at hc
    · have hxs : x ∈ s.scene := by
        rcases List.mem_append.1 hx with h | h
        · exact h
        · exact absurd (by simpa using h) hxn
      simp only [hxn, if_false] at hc
      rw [epar]
      by_cases hcn : c = s.next
      · simp only [hcn, if_true]
        split at hc
        · assumption
        · rw [hcn] at hc
          exact absurd (hs.child_lt x _ hc) (Nat.lt_irrefl _)
      · simp only [hcn, if_false]
        have hc2 : c ∈ (s.heap x).childList := by
          split at hc
          · rcases List.mem_append.1 hc with h | h
            · exact h
            · exact absurd (by simpa using h) hcn
          · exact hc
        exact hs.child_parent x hxs c hc2
  · have hold : ∀ q, q ≠ s.next → Rooted s1.heap q := by
      intro q hq
      refine rooted_of_fresh s.heap s1.heap s.next ?_ ?_ q hq (hs.rooted q)
      · intro r hr
        rw [epar]
        simp [hr]
      · intro r hr
        exact Nat.lt_irrefl _ (hs.parent_lt r _ hr)
    intro p
    by_cases hp : p = s.next
    · subst hp
      cases hh : s.selected.head? with
      | none =>
        refine Rooted.root _ ?_
        rw [epar]
        simp [hh]
      | some sel =>
        have hsl : sel < s.next := hs.sel_lt sel (List.mem_of_mem_head? hh)
        refine Rooted.step _ sel ?_ (hold sel (Nat.ne_of_lt hsl))
        rw [epar]
        simp [hh]
    · exact hold p hp

theorem sceneInv_remove (s s1 : AppState K) (hs : SceneInv s) (e : removeJoint s = some s1) :
    SceneInv s1 := by
  cases hsel : s.selected with
  | nil =>
    have : removeJoint s = some s := by simp [removeJoint, hsel]
    rw [this] at e
    cases e
    exact hs
  | cons sel tl =>
    obtain ⟨k, hk1, hk, e2, e1, e3, hcase⟩ := removeJoint_shape s s1 sel tl hsel hs.nodup e
    have hselmem : sel ∈ s.scene := List.mem_iff_getElem?.2 ⟨k, hk⟩
    have hsub : ∀ x, x ∈ s1.scene → x ∈ s.scene ∧ x ≠ sel := by
      intro x hx
      rw [e2] at hx
      refine ⟨List.mem_of_mem_eraseIdx hx, ?_⟩
      intro hEq
      rw [hEq] at hx
      exact not_mem_eraseIdx_of_nodup hs.nodup hk hx
    have hnd : s1.scene.Nodup := by
      rw [e2]
      exact List.Nodup.eraseIdx k hs.nodup
    have hsl : ∀ p ∈ s1.scene, p < s1.next := by
      intro p hp
      rw [e1]
      exact hs.scene_lt p (hsub p hp).1
    have hsel1 : ∀ p ∈ s1.selected, p < s1.next := by
      intro p hp
      rw [e3] at hp
      simp at hp
    rcases hcase with ⟨hpar, epar, ech⟩ | ⟨p, hpar, hpx, epar, ech, echp⟩
    · refine ⟨hnd, hsl, hsel1, ?_, ?_, ?_, ?_⟩
      · intro q c hc
        rw [ech] at hc
        rw [e1]
        exact hs.child_lt q c hc
      · intro q r hr
        rw [epar] at hr
        rw [e1]
        split at hr
        · cases hr
        · exact hs.parent_lt q r hr
      · intro x hx c hc
        rw [ech] at hc
        obtain ⟨hxs, hxne⟩ := hsub x hx
        have hcx := hs.child_parent x hxs c hc
        rw [epar]
        have hnot : c ∉ (s.heap sel).childList := by
          intro hin
          have := hs.child_parent sel hselmem c hin
          rw [hcx] at this
          exact hxne (Option.some.inj this)
        simp only [hnot, if_false]
        exact hcx
      · intro q
        refine rooted_of_cut s.heap s1.heap ?_ q (hs.rooted q)
        intro r
        rw [epar]
        by_cases hr : r ∈ (s.heap sel).childList
        · right; simp [hr]
        · left; simp [hr]
    · have hplt : p < s.next := hs.parent_lt sel p hpar
      refine ⟨hnd, hsl, hsel1, ?_, ?_, ?_, ?_⟩
      · intro q c hc
        rw [e1]
        by_cases hq : q = p
        · rw [hq] at hc
          rcases echp c hc with h | h
          · exact hs.child_lt p c h
          · exact hs.child_lt sel c h
        · rw [ech q hq] at hc
          exact hs.child_lt q c hc
      · intro q r hr
        rw [epar] at hr
        rw [e1]
        split at hr
        · have : r = p := (Option.some.inj hr).symm
          rw [this]
          exact hplt
        · exact hs.parent_lt q r hr
      · intro x hx c hc
        obtain ⟨hxs, hxne⟩ := hsub x hx
        rw [epar]
        by_cases hin : c ∈ (s.heap sel).childList
        · simp only [hin, if_true]
          by_cases hxp : x = p
          · rw [hxp]
          · rw [ech x hxp] at hc
            have h1 := hs.child_parent x hxs c hc
            have h2 := hs.child_parent sel hselmem c hin
            rw [h1] at h2
            exact absurd (Option.some.inj h2) hxne
        · simp only [hin, if_false]
          by_cases hxp : x = p
          · rw [hxp] at hc hxs ⊢
            rcases echp c hc with h | h
            · exact hs.child_parent p hxs c h
            · exact absurd h hin
          · rw [ech x hxp] at hc
            exact hs.child_parent x hxs c hc
      · intro q
        refine rooted_of_skip s.heap s1.heap sel p hpar ?_ q (hs.rooted q)
        intro r
        rw [epar]
        by_cases hr : r ∈ (s.heap sel).childList
        · right
          exact ⟨hs.child_parent sel hselmem r hr, by simp [hr]⟩
        · left; simp [hr]

theorem reachable_sceneInv (F : FloatOps K) (s : AppState K) (hr : Reachable F s) :
    SceneInv s := by
  induction hr with
  | setup => exact sceneInv_setup
  | mouse s camInput intersects camPos _ ih => exact sceneInv_mouse F camInput intersects camPos s ih
  | create s s1 fuel point _ e ih => exact sceneInv_create F fuel point s s1 ih e
  | remove s s1 _ e ih => exact sceneInv_remove s s1 ih e

/-- C14: in every application state reached from the state after `setup` by mouse
presses, `createJoint` and `removeJoint`, the parent links of every scene node
reach a node without parent along a finite path, and `getMatrix` returns on that
node for every fuel of at least the length of the path. -/
theorem forest_invariant (F : FloatOps K) (s : AppState K) (hr : Reachable F s) (p : Ptr)
    (hp : p ∈ s.scene) :
    ∃ path, parentPath s.heap path = true ∧ path.head? = some p
      ∧ ∀ fuel, path.length ≤ fuel → ∃ M, getMatrix F s.heap fuel p = some M := by
  have hinv := reachable_sceneInv F s hr
  obtain ⟨path, h1, h2⟩ := rooted_path s.heap p (hinv.rooted p)
  refine ⟨path, h1, h2, ?_⟩
  intro fuel hfuel
  cases path with
  | nil => simp at h2
  | cons a rest =>
    have ha : a = p := by simpa using h2
    subst ha
    exact ⟨_, getMatrix_of_parentPath F s.heap rest a fuel h1 hfuel⟩

/-- Witness of C14: a joint is created and selected, a child is created under it,
and the first joint is removed; the child is then a scene node. -/
theorem forest_invariant_witness :
    ∃ s1 s2 s3,
      createJoint (⟨Real.cos, Real.sin, Real.sqrt, Real.pi⟩ : FloatOps ℝ) 1 ⟨0, 0, 0⟩
          (AppState.setup : AppState ℝ) = some s1
      ∧ createJoint (⟨Real.cos, Real.sin, Real.sqrt, Real.pi⟩ : FloatOps ℝ) 2 ⟨1, 0, 0⟩
          (mousePressed (⟨Real.cos, Real.sin, Real.sqrt, Real.pi⟩ : FloatOps ℝ) false
            (fun p => decide (p = 1)) ⟨0, 0, 10⟩ s1) = some s2
      ∧ removeJoint s2 = some s3
      ∧ s3.scene = [0, 2]
      ∧ ∃ path, parentPath s3.heap path = true ∧ path.head? = some 2
          ∧ ∀ fuel, path.length ≤ fuel →
              ∃ M, getMatrix (⟨Real.cos, Real.sin, Real.sqrt, Real.pi⟩ : FloatOps ℝ)
                s3.heap fuel 2 = some M :=
  ⟨_, _, _, rfl, rfl, rfl, rfl,
    forest_invariant (⟨Real.cos, Real.sin, Real.sqrt, Real.pi⟩ : FloatOps ℝ) _
      (Reachable.remove _ _
        (Reachable.create _ _ 2 ⟨1, 0, 0⟩
          (Reachable.mouse _ false (fun p => decide (p = 1)) ⟨0, 0, 10⟩
            (Reachable.create _ _ 1 ⟨0, 0, 0⟩ Reachable.setup rfl)) rfl) rfl)
      2 (by decide)⟩

end Theorems

end SkeletonKeyframe
